import Mathlib

/-!
# Verification of the PDF summarization pipeline

A shallow embedding of the core text-processing pipeline of
`pdf-reader-text-image-version5.py` (classes `PDFProcessor` and `APIClient`),
together with theorems settling the specification claims about it.

Python strings are modelled as `List Char`, Python's `len` as `List.length`,
slicing `text[a:b]` as `sliceList`, `str.strip()` as `stripChars`,
`str.rfind(sub, s, e)` as `rfindList` (returning `-1 : Int` when absent,
exactly like Python), and `str.startswith` as `startsWithList`.
The `while` loop of `_split_text_into_chunks` is embedded as the
fuel-indexed recursion `splitLoop`; running out of fuel yields `none`, and
we prove separately that the fuel used by the wrapper always suffices.
Network interaction in `_send_api_request` is abstracted by the
`ApiOutcome` type describing what the single HTTP POST did; the embedding
also returns a flag recording whether the network call was attempted.
`summarize_text` is embedded parametrically in an oracle
`send : prompt → context → response` standing for `_send_api_request`, and
it additionally returns the ordered log of issued requests so request
counts and ordering can be stated.  The status-callback invocations and the
fixed inter-call delay of the source have no effect on any returned value
and are not modelled.
-/

/-- The set of characters stripped by Python's `str.strip()` for ASCII
input: space, tab, newline, carriage return, vertical tab, form feed. -/
def isPySpace (c : Char) : Bool :=
  c = ' ' || c = '\t' || c = '\n' || c = '\r' || c = '\x0b' || c = '\x0c'

/-- Python `str.strip()`: remove leading and trailing whitespace. -/
def stripChars (l : List Char) : List Char :=
  ((l.dropWhile isPySpace).reverse.dropWhile isPySpace).reverse

/-- Python slicing `text[a:b]` for `0 ≤ a ≤ b` (as used in the source). -/
def sliceList (l : List Char) (a b : ℕ) : List Char :=
  (l.take b).drop a

/-- Python `str.startswith`: `startsWithList pat s` is true iff `pat` is an
initial segment of `s`. -/
def startsWithList : List Char → List Char → Bool
  | [], _ => true
  | _ :: _, [] => false
  | p :: ps, c :: cs => p == c && startsWithList ps cs

/-- Worker for `rfindList`: scan positions `i, i+1, ...` of the remaining
suffix `t` of the text, remembering the last position in `[s, e - |sub|]`
where `sub` matches; `best` is the best position found so far (`-1` for
none), which is exactly Python's `rfind` sentinel. -/
def rfindGo (sub : List Char) (s e : ℕ) : List Char → ℕ → Int → Int
  | [], _, best => best
  | t :: ts, i, best =>
    if e < i + sub.length then best
    else
      rfindGo sub s e ts (i + 1)
        (if s ≤ i && startsWithList sub (t :: ts) then (i : Int) else best)

/-- Python `text.rfind(sub, s, e)`: the largest `i` with `s ≤ i`,
`i + |sub| ≤ e` and `sub` matching `text` at `i`, or `-1` if none. -/
def rfindList (text sub : List Char) (s e : ℕ) : Int :=
  rfindGo sub s e text 0 (-1)

/-- Decimal rendering of a natural number, for the f-string interpolations
of the source. -/
def natStr (n : ℕ) : List Char :=
  (Nat.repr n).data

/-- The non-whitespace content of a string, used to state that chunking
neither drops nor duplicates content characters. -/
def filterNonWs (l : List Char) : List Char :=
  l.filter fun c => !isPySpace c

/-- `APIClient.MAX_CHARS_PER_CHUNK`. -/
def MAX_CHARS_PER_CHUNK : ℕ := 15000

/-- `APIClient.MAX_COMBINED_SUMMARY_CHARS`. -/
def MAX_COMBINED_SUMMARY_CHARS : ℕ := 20000

/-- The page-boundary marker searched for by the splitter (line 159). -/
def pageMarker : List Char := "\n--- Page".data

/-- The paragraph break searched for by the splitter (line 162). -/
def paraSep : List Char := "\n\n".data

/-- The sentence separators of line 167, in source order. -/
def sentenceSeps : List (List Char) :=
  [". ".data, "! ".data, "? ".data, ".\n".data, "!\n".data, "?\n".data]

/-- The sentence-break accumulation loop of lines 166-170: fold over the
separators, keeping `sentence_break` (`-1` initially); a hit at `found`
strictly after the cursor and strictly greater than the accumulator moves
the accumulator to `found + 1` (position after the punctuation). -/
def sentenceBreakAt (text : List Char) (currentPos endPos : ℕ) : Int :=
  sentenceSeps.foldl
    (fun sb sep =>
      let found := rfindList text sep currentPos endPos
      if found > (currentPos : Int) && found > sb then found + 1 else sb)
    (-1)

/-- Lines 156-175 of `_split_text_into_chunks`: choose the actual cut
position inside the window `[currentPos, endPos)`.  `best_split` starts at
`-1`; a page break strictly after the cursor is taken; a paragraph break
strictly after the cursor and strictly greater than the current best moves
the best to the position after the break; sentence separators are
consulted only when `best_split` is still `-1`; finally the cut is
`best_split` when it is strictly after the cursor, else `endPos`. -/
def chooseSplitPos (text : List Char) (currentPos endPos : ℕ) : ℕ :=
  let bestSplit : Int := -1
  let pageBreak := rfindList text pageMarker currentPos endPos
  let bestSplit := if pageBreak > (currentPos : Int) then pageBreak else bestSplit
  let paraBreak := rfindList text paraSep currentPos endPos
  let bestSplit :=
    if paraBreak > (currentPos : Int) && paraBreak > bestSplit then paraBreak + 2
    else bestSplit
  let bestSplit :=
    if bestSplit = -1 then
      let sentenceBreak := sentenceBreakAt text currentPos endPos
      if sentenceBreak > (currentPos : Int) then sentenceBreak else bestSplit
    else bestSplit
  if bestSplit > (currentPos : Int) then bestSplit.toNat else endPos

/-- Lines 152-175: the value of `split_pos` for one loop iteration, i.e.
the window end `min(current_pos + MAX_CHARS_PER_CHUNK, text_len)`, refined
by `chooseSplitPos` when the window does not already reach the end of the
text. -/
def splitPosAt (text : List Char) (currentPos : ℕ) : ℕ :=
  let endPos := min (currentPos + MAX_CHARS_PER_CHUNK) text.length
  if endPos < text.length then chooseSplitPos text currentPos endPos else endPos

/-- Lines 177-179 (and 189-190): a stripped chunk is appended only when it
is non-empty. -/
def emitChunk (c : List Char) : List (List Char) :=
  if c.isEmpty then [] else [c]

/-- The `while` loop of lines 151-191, fuel-indexed.  One iteration carves
the chunk `text[current_pos:split_pos]`, then evaluates the three trailing
conditions of lines 183-191 verbatim: break when the cut reached both the
window end and the text end; break when the cursor reached the text end;
otherwise (the third condition is then always satisfied) take the forced
chunk `text[current_pos:force_end]` and continue from `force_end`.
`none` means the fuel ran out before the loop finished. -/
def splitLoop (text : List Char) : ℕ → ℕ → Option (List (List Char))
  | 0, _ => none
  | fuel + 1, currentPos =>
    if currentPos < text.length then
      let endPos := min (currentPos + MAX_CHARS_PER_CHUNK) text.length
      let splitPos := splitPosAt text currentPos
      let chunks₁ := emitChunk (stripChars (sliceList text currentPos splitPos))
      if splitPos = endPos ∧ endPos = text.length then some chunks₁
      else if text.length ≤ splitPos then some chunks₁
      else if splitPos ≤ splitPos ∧ splitPos < text.length then
        let forceEnd := min (splitPos + MAX_CHARS_PER_CHUNK) text.length
        let chunks₂ := chunks₁ ++ emitChunk (stripChars (sliceList text splitPos forceEnd))
        (splitLoop text fuel forceEnd).map (chunks₂ ++ ·)
      else
        (splitLoop text fuel splitPos).map (chunks₁ ++ ·)
    else some []

/-- `APIClient._split_text_into_chunks` (lines 143-194): empty text gives
no chunks, text within the budget is returned as the single chunk
verbatim, otherwise the loop runs (the fuel `text.length + 1` is proved
sufficient below) and the final comprehension filters empty chunks. -/
def splitTextIntoChunks (text : List Char) : List (List Char) :=
  if text.isEmpty || text.length ≤ MAX_CHARS_PER_CHUNK then
    if text.isEmpty then [] else [text]
  else
    ((splitLoop text (text.length + 1) 0).getD []).filter (fun c => !c.isEmpty)

/-- The `"Error:"` tag by which callers distinguish failures (the
`startswith("Error:")` convention). -/
def errorTag : List Char := "Error:".data

/-- The result of `message.get('content')` in a successful response:
`none` models an absent key. -/
structure ApiMessage where
  content : Option (List Char)

/-- One element of the response's `choices` list. -/
structure ApiChoice where
  message : Option ApiMessage
  finishReason : Option (List Char)

/-- The parsed JSON body of a 2xx response.  `isTruthy` models the guard
`if response_data` (a `None` or empty body is falsy); `choices` is `none`
when the key is absent; `repr` models `str(response_data)` as used in the
error messages. -/
structure ApiResponseData where
  isTruthy : Bool
  choices : Option (List ApiChoice)
  repr : List Char

/-- What the single `requests.post` of `_send_api_request` did: each
constructor corresponds to one `except` arm of lines 241-258 (with the
payload rendering the exception text), or to a parsed 2xx response. -/
inductive ApiOutcome where
  | timeout
  | httpError (errMsg : List Char) (statusCode : ℕ)
      (bodyJson : Option (List Char)) (bodyText : List Char)
  | requestError (errMsg : List Char)
  | parseError (errMsg : List Char)
  | unexpected (errMsg : List Char)
  | success (rd : ApiResponseData)

/-- The message returned when the credential is missing (line 199). -/
def apiKeyMissingMsg : List Char := "Error: API Key not provided to APIClient.".data

/-- `APIClient._send_api_request` (lines 196-258).  The first component is
the returned string; the second records whether the network call was
attempted (`false` exactly on the missing-credential early return).  The
`success` branch mirrors lines 222-239: the guard
`response_data and 'choices' in response_data and response_data['choices']`,
then `choices[0].get('message', {})`, `message.get('content')`, the
truthiness test on the content, and the `finish_reason` dispatch. -/
def sendApiRequest (apiKey : List Char) (outcome : ApiOutcome) : List Char × Bool :=
  if apiKey.isEmpty then (apiKeyMissingMsg, false)
  else
    match outcome with
    | .timeout =>
        ("Error: Request timed out. Check connection or increase timeout.".data, true)
    | .httpError errMsg statusCode bodyJson bodyText =>
        ("Error: HTTP Error: ".data ++ errMsg ++ ". Status Code: ".data
          ++ natStr statusCode ++ ", Response: ".data
          ++ (match bodyJson with
              | some j => j
              | none => bodyText), true)
    | .requestError errMsg =>
        ("Error: Network or Request Error: ".data ++ errMsg, true)
    | .parseError errMsg =>
        ("Error: Could not parse API response: ".data ++ errMsg, true)
    | .unexpected errMsg =>
        ("Error: An unexpected error occurred: ".data ++ errMsg, true)
    | .success rd =>
        match rd.isTruthy, rd.choices with
        | true, some (choice :: _) =>
            let message := choice.message.getD ⟨none⟩
            (match message.content with
             | some (c :: cs) => (stripChars (c :: cs), true)
             | _ =>
                (match choice.finishReason with
                 | some fr =>
                    if fr = "content_filter".data then
                      ("Error: API response filtered due to content policy.".data, true)
                    else if fr = "length".data then
                      ("Error: API response truncated due to length limits. Consider reducing chunk size or summary detail.".data, true)
                    else
                      ("Error: API returned empty content (Finish Reason: ".data
                        ++ fr ++ ").".data, true)
                 | none =>
                    ("Error: API returned empty content (Finish Reason: None).".data, true)))
        | _, _ =>
            ("Error: Unexpected API response format. Data: ".data ++ rd.repr, true)

/-- The context preamble of line 287 for chunk number `chunkNum` of
`numChunks`. -/
def chunkContext (chunkNum numChunks : ℕ) : List Char :=
  "You are summarizing part ".data ++ natStr chunkNum ++ " of ".data
    ++ natStr numChunks ++ " from a larger document.".data

/-- The per-chunk prompt of line 288. -/
def chunkPrompt (custom chunk : List Char) : List Char :=
  custom ++ "\n\nPlease summarize this section of the document:\n\n".data ++ chunk

/-- The bracketed per-chunk error marker of line 294. -/
def chunkErrorEntry (chunkNum : ℕ) (chunkSummary : List Char) : List Char :=
  "[Error summarizing chunk ".data ++ natStr chunkNum ++ ": ".data
    ++ chunkSummary ++ "]".data

/-- The `for` loop of lines 283-298, parameterized by the oracle `send`
standing for `_send_api_request`.  Returns the collected
`(chunk_summaries, has_errors)` together with the ordered log of issued
`(prompt, context)` requests.  `i` is the running 0-based index. -/
def processChunks (send : List Char → List Char → List Char) (custom : List Char)
    (numChunks : ℕ) : List (List Char) → ℕ → List (List Char) × Bool × List (List Char × List Char)
  | [], _ => ([], false, [])
  | chunk :: rest, i =>
    let chunkNum := i + 1
    let contextInfo := chunkContext chunkNum numChunks
    let prompt := chunkPrompt custom chunk
    let chunkSummary := send prompt contextInfo
    let entry :=
      if startsWithList errorTag chunkSummary then chunkErrorEntry chunkNum chunkSummary
      else chunkSummary
    let isErr := startsWithList errorTag chunkSummary
    let rec₁ := processChunks send custom numChunks rest (i + 1)
    (entry :: rec₁.1, (isErr || rec₁.2.1), (prompt, contextInfo) :: rec₁.2.2)

/-- The request log that the loop of lines 283-298 should issue: one
request per chunk, in chunk order, with 1-based part numbers. -/
def expectedChunkReqs (custom : List Char) (numChunks : ℕ) :
    List (List Char) → ℕ → List (List Char × List Char)
  | [], _ => []
  | chunk :: rest, i =>
    (chunkPrompt custom chunk, chunkContext (i + 1) numChunks)
      :: expectedChunkReqs custom numChunks rest (i + 1)

/-- The joining separator of line 304. -/
def summarySep : List Char := "\n\n---\n\n".data

/-- The skip-notice prefix of line 308 (one fixed string, used whether
synthesis is skipped for combined length or for chunk errors). -/
def skipNotice : List Char :=
  "--- Combined Section Summaries (Final Synthesis Skipped Due to Length or Chunk Errors) ---\n\n".data

/-- The synthesis prompt of lines 314-320. -/
def synthesisPrompt (custom combined : List Char) : List Char :=
  "The following are summaries of consecutive sections of a document. Synthesize them into a single, coherent, and comprehensive summary of the entire document, maintaining a consistent tone and flow.\n\nThe original high-level instruction for the summary was: \x27".data
    ++ custom
    ++ "\x27\n\n--- Individual Section Summaries to Combine ---\n".data
    ++ combined

/-- The single-chunk prompt of line 275. -/
def singleChunkPrompt (custom chunk : List Char) : List Char :=
  custom ++ "\n\nPlease summarize the following text:\n\n".data ++ chunk

/-- `APIClient.summarize_text` (lines 260-323), parameterized by the
oracle `send` standing for `_send_api_request` (the second oracle argument
is the `context_info`, empty for the default).  Returns the terminal
string result together with the ordered log of issued requests.  Status
callbacks and the inter-call delay do not affect these values and are not
modelled. -/
def summarizeText (send : List Char → List Char → List Char)
    (text custom : List Char) : List Char × List (List Char × List Char) :=
  if text.isEmpty || (stripChars text).isEmpty then
    ("Error: No text provided to summarize.".data, [])
  else
    let chunks := splitTextIntoChunks text
    let numChunks := chunks.length
    if numChunks = 0 then
      ("Error: Text resulted in zero valid chunks after splitting.".data, [])
    else if numChunks = 1 then
      let prompt := singleChunkPrompt custom chunks.headI
      let summary := send prompt []
      (summary, [(prompt, [])])
    else
      let pcr := processChunks send custom numChunks chunks 0
      if pcr.1.isEmpty then
        ("Error: Failed to get summaries for any chunk.".data, pcr.2.2)
      else
        let combined := List.intercalate summarySep pcr.1
        if MAX_COMBINED_SUMMARY_CHARS < combined.length ∨ pcr.2.1 = true then
          (skipNotice ++ combined, pcr.2.2)
        else
          let finalPrompt := synthesisPrompt custom combined
          let finalSummary := send finalPrompt []
          (finalSummary, pcr.2.2 ++ [(finalPrompt, [])])

/-- One page block of `PDFProcessor.merge_text_and_images` (lines
106-111): the page header, the page text, the optional OCR section, and
the trailing blank line; `i` is the 0-based page index. -/
def mergePageBlock (imageTextDict : ℕ → Option (List Char)) (page : List Char)
    (i : ℕ) : List Char :=
  "--- Page ".data ++ natStr (i + 1) ++ " ---\n".data ++ page ++ "\n".data
    ++ (match imageTextDict i with
        | some t =>
          if (stripChars t).isEmpty then []
          else
            "\n[Image Text Extracted via OCR on Page ".data ++ natStr (i + 1)
              ++ "]\n".data ++ t ++ "\n".data
        | none => [])
    ++ "\n".data

/-- The accumulation loop of lines 105-111, page by page from index `i`. -/
def mergeGo (imageTextDict : ℕ → Option (List Char)) :
    List (List Char) → ℕ → List Char
  | [], _ => []
  | page :: rest, i => mergePageBlock imageTextDict page i ++ mergeGo imageTextDict rest (i + 1)

/-- `PDFProcessor.merge_text_and_images` (lines 103-112): concatenate the
page blocks and strip the result. -/
def mergeTextAndImages (pdfTextPages : List (List Char))
    (imageTextDict : ℕ → Option (List Char)) : List Char :=
  stripChars (mergeGo imageTextDict pdfTextPages 0)

def aBlock : List Char := List.replicate 14900 'a'

def bBlock : List Char := List.replicate 87 'b'

def cBlock : List Char := List.replicate 10 'c'

def bigText : List Char := aBlock ++ (pageMarker ++ (bBlock ++ (paraSep ++ cBlock)))

def bigChunk1 : List Char := aBlock ++ (pageMarker ++ bBlock)

/-- A short text with a page marker at position 2, for small witnesses. -/
def demo1 : List Char := "ab\n--- Page 1 ---\nxyz".data

/-- A fixed instruction string for the concrete runs. -/
def demoInstr : List Char := "Summarize".data

/-- An oracle whose chunk responses are 10100 characters each, so that the
combined summaries exceed `MAX_COMBINED_SUMMARY_CHARS` with no chunk
failing; the synthesis request (empty context) would answer `"FINAL"`. -/
def sendAllLong : List Char → List Char → List Char := fun _ ctx =>
  if ctx.isEmpty then "FINAL".data else List.replicate 10100 'x'

/-- An oracle that fails the first of two chunk requests with an
error-tagged response and answers `"OK"` otherwise. -/
def sendErrFirst : List Char → List Char → List Char := fun _ ctx =>
  if ctx = chunkContext 1 2 then "Error: boom".data else "OK".data

/-- `m` occurs as a contiguous substring of `l`. -/
def occursIn (m l : List Char) : Prop :=
  ∃ a b, l = a ++ m ++ b

/-! ## Basic lemmas about the string primitives -/

theorem startsWithList_append_self (p r : List Char) :
    startsWithList p (p ++ r) = true := by
  induction p with
  | nil => rfl
  | cons c cs ih => simp [startsWithList, ih]

theorem startsWithList_head_false {p c : Char} (ps cs : List Char)
    (h : (p == c) = false) : startsWithList (p :: ps) (c :: cs) = false := by
  simp [startsWithList, h]

theorem rfindGo_stop {sub : List Char} {s e i : ℕ} (h : e < i + sub.length)
    (t : List Char) (best : Int) : rfindGo sub s e t i best = best := by
  cases t with
  | nil => rfl
  | cons c cs => simp [rfindGo, if_pos h]

theorem rfindGo_drop_step (text sub : List Char) (s e i : ℕ) (best : Int)
    (hi : i < text.length) (hb : i + sub.length ≤ e) :
    rfindGo sub s e (text.drop i) i best
      = rfindGo sub s e (text.drop (i + 1)) (i + 1)
          (if (decide (s ≤ i) && startsWithList sub (text.drop i)) = true
            then (i : Int) else best) := by
  conv_lhs => rw [List.drop_eq_getElem_cons hi]
  simp only [rfindGo]
  rw [if_neg (by omega)]
  rw [← List.drop_eq_getElem_cons hi]

theorem rfindGo_skip (text sub : List Char) (s e : ℕ) :
    ∀ (k i : ℕ) (best : Int),
      (∀ j, i ≤ j → j < i + k →
        (decide (s ≤ j) && startsWithList sub (text.drop j)) = false) →
      i + k + sub.length ≤ e + 1 → 1 ≤ sub.length → e ≤ text.length →
      rfindGo sub s e (text.drop i) i best
        = rfindGo sub s e (text.drop (i + k)) (i + k) best := by
  intro k
  induction k with
  | zero => intro i best _ _ _ _; rfl
  | succ k ih =>
    intro i best hno hbound hsub he
    have hi : i < text.length := by omega
    have hb : i + sub.length ≤ e := by omega
    rw [rfindGo_drop_step text sub s e i best hi hb]
    rw [if_neg (by rw [hno i (le_refl i) (by omega)]; simp)]
    have harith : i + 1 + k = i + (k + 1) := by omega
    have := ih (i + 1) best (fun j hj1 hj2 => hno j (by omega) (by omega)) (by omega) hsub he
    rw [harith] at this
    exact this

theorem rfindGo_match_step (text sub : List Char) (s e i : ℕ) (best : Int)
    (hi : i < text.length) (hb : i + sub.length ≤ e) (hs : s ≤ i)
    (hm : startsWithList sub (text.drop i) = true) :
    rfindGo sub s e (text.drop i) i best
      = rfindGo sub s e (text.drop (i + 1)) (i + 1) (i : Int) := by
  rw [rfindGo_drop_step text sub s e i best hi hb]
  rw [if_pos (by simp [hs, hm])]

theorem rfindGo_bound {sub : List Char} {s e : ℕ} :
    ∀ (t : List Char) (i : ℕ) (best : Int),
      (best = -1 ∨ (0 ≤ best ∧ best.toNat + sub.length ≤ e)) →
      (rfindGo sub s e t i best = -1 ∨
        (0 ≤ rfindGo sub s e t i best ∧
          (rfindGo sub s e t i best).toNat + sub.length ≤ e)) := by
  intro t
  induction t with
  | nil => intro i best h; exact h
  | cons c cs ih =>
    intro i best h
    by_cases hc : e < i + sub.length
    · rw [rfindGo_stop hc]; exact h
    · show (rfindGo sub s e (c :: cs) i best = -1 ∨ _)
      rw [rfindGo, if_neg hc]
      apply ih
      by_cases hm : (decide (s ≤ i) && startsWithList sub (c :: cs)) = true
      · rw [if_pos hm]
        right
        constructor
        · exact Int.ofNat_nonneg i
        · simpa using Nat.le_of_not_lt hc
      · rw [if_neg hm]; exact h

theorem rfindList_bound (text sub : List Char) (s e : ℕ) :
    rfindList text sub s e = -1 ∨
      (0 ≤ rfindList text sub s e ∧
        (rfindList text sub s e).toNat + sub.length ≤ e) :=
  rfindGo_bound text 0 (-1) (Or.inl rfl)

theorem length_dropWhile_le (p : Char → Bool) (l : List Char) :
    (l.dropWhile p).length ≤ l.length := by
  induction l with
  | nil => simp
  | cons c cs ih =>
    rw [List.dropWhile_cons]
    split
    · exact Nat.le_succ_of_le ih
    · simp

theorem stripChars_length_le (l : List Char) :
    (stripChars l).length ≤ l.length := by
  unfold stripChars
  calc ((l.dropWhile isPySpace).reverse.dropWhile isPySpace).reverse.length
      = ((l.dropWhile isPySpace).reverse.dropWhile isPySpace).length := by
        rw [List.length_reverse]
    _ ≤ (l.dropWhile isPySpace).reverse.length := length_dropWhile_le _ _
    _ = (l.dropWhile isPySpace).length := by rw [List.length_reverse]
    _ ≤ l.length := length_dropWhile_le _ _

theorem filterNonWs_dropWhile (l : List Char) :
    filterNonWs (l.dropWhile isPySpace) = filterNonWs l := by
  induction l with
  | nil => rfl
  | cons c cs ih =>
    rw [List.dropWhile_cons]
    by_cases h : isPySpace c = true
    · rw [if_pos h, ih]
      unfold filterNonWs
      rw [List.filter_cons, if_neg (by simp [h])]
    · rw [if_neg h]

theorem filterNonWs_reverse (l : List Char) :
    filterNonWs l.reverse = (filterNonWs l).reverse :=
  List.filter_reverse _ _

theorem filterNonWs_stripChars (l : List Char) :
    filterNonWs (stripChars l) = filterNonWs l := by
  unfold stripChars
  rw [filterNonWs_reverse, filterNonWs_dropWhile, filterNonWs_reverse,
    List.reverse_reverse, filterNonWs_dropWhile]

theorem stripChars_cons_ne_nil {c : Char} (t : List Char)
    (h : isPySpace c = false) : stripChars (c :: t) ≠ [] := by
  unfold stripChars
  rw [List.dropWhile_cons_of_neg (by simp [h])]
  intro hempty
  have h2 : ((c :: t).reverse.dropWhile isPySpace) = [] := by
    have := congrArg List.reverse hempty
    rwa [List.reverse_reverse] at this
  rw [List.dropWhile_eq_nil_iff] at h2
  have := h2 c (by simp)
  rw [h] at this
  exact Bool.false_ne_true this

theorem stripChars_eq_nil_filter {l : List Char} (h : stripChars l = []) :
    filterNonWs l = [] := by
  rw [← filterNonWs_stripChars l, h]; rfl

theorem slice_length (l : List Char) (a b : ℕ) :
    (sliceList l a b).length = min b l.length - a := by
  simp [sliceList]

theorem slice_decomp (l : List Char) (a b : ℕ) (hab : a ≤ b)
    (hb : b ≤ l.length) : l.drop a = sliceList l a b ++ l.drop b := by
  unfold sliceList
  conv_lhs => rw [← List.take_append_drop b l]
  rw [List.drop_append_eq_append_drop]
  have h0 : a - (l.take b).length = 0 := by
    rw [List.length_take]; omega
  rw [h0, List.drop_zero]

/-! ## Lemmas about the cut-point choice -/

theorem MAX_CHARS_val : MAX_CHARS_PER_CHUNK = 15000 := rfl

theorem pageMarker_length : pageMarker.length = 9 := rfl

theorem paraSep_length : paraSep.length = 2 := rfl

theorem sentenceBreakAt_bound (text : List Char) (cur e : ℕ) :
    sentenceBreakAt text cur e = -1 ∨
      (0 ≤ sentenceBreakAt text cur e ∧ (sentenceBreakAt text cur e).toNat ≤ e) := by
  have aux : ∀ (seps : List (List Char)), (∀ x ∈ seps, 1 ≤ x.length) →
      ∀ sb : Int, (sb = -1 ∨ (0 ≤ sb ∧ sb.toNat ≤ e)) →
      (seps.foldl
        (fun sb sep =>
          let found := rfindList text sep cur e
          if found > (cur : Int) && found > sb then found + 1 else sb) sb = -1 ∨
        (0 ≤ seps.foldl
          (fun sb sep =>
            let found := rfindList text sep cur e
            if found > (cur : Int) && found > sb then found + 1 else sb) sb ∧
          (seps.foldl
            (fun sb sep =>
              let found := rfindList text sep cur e
              if found > (cur : Int) && found > sb then found + 1 else sb) sb).toNat ≤ e)) := by
    intro seps
    induction seps with
    | nil => intro _ sb h; exact h
    | cons sep rest ih =>
      intro hlen sb h
      rw [List.foldl_cons]
      apply ih (fun x hx => hlen x (List.mem_cons_of_mem _ hx))
      simp only []
      split_ifs with hcond
      · simp only [Bool.and_eq_true, decide_eq_true_eq] at hcond
        have hfb := rfindList_bound text sep cur e
        have hsep := hlen sep (List.mem_cons_self sep rest)
        rcases hfb with hfb | hfb <;> (right; omega)
      · exact h
  exact aux sentenceSeps (by decide) (-1) (Or.inl rfl)

theorem chooseSplitPos_cases (text : List Char) (cur e : ℕ) :
    chooseSplitPos text cur e = e ∨
      (chooseSplitPos text cur e = (rfindList text pageMarker cur e).toNat ∧
        (cur : Int) < rfindList text pageMarker cur e) ∨
      (chooseSplitPos text cur e = (rfindList text paraSep cur e + 2).toNat ∧
        (cur : Int) < rfindList text paraSep cur e) ∨
      (chooseSplitPos text cur e = (sentenceBreakAt text cur e).toNat ∧
        (cur : Int) < sentenceBreakAt text cur e) := by
  simp only [chooseSplitPos, gt_iff_lt, Bool.and_eq_true, decide_eq_true_eq]
  split_ifs
  all_goals
    first
      | exact Or.inl rfl
      | (exact Or.inr (Or.inl ⟨rfl, by omega⟩))
      | (exact Or.inr (Or.inr (Or.inl ⟨rfl, by omega⟩)))
      | (exact Or.inr (Or.inr (Or.inr ⟨rfl, by omega⟩)))
      | (exfalso; omega)

theorem chooseSplitPos_le (text : List Char) (cur e : ℕ) :
    chooseSplitPos text cur e ≤ e := by
  have hpb := rfindList_bound text pageMarker cur e
  have hpa := rfindList_bound text paraSep cur e
  have hsb := sentenceBreakAt_bound text cur e
  rw [pageMarker_length] at hpb
  rw [paraSep_length] at hpa
  rcases chooseSplitPos_cases text cur e with h | ⟨h, hgt⟩ | ⟨h, hgt⟩ | ⟨h, hgt⟩
  · rw [h]
  · rw [h]; rcases hpb with hb | hb <;> omega
  · rw [h]; rcases hpa with hb | hb <;> omega
  · rw [h]; rcases hsb with hb | hb <;> omega

theorem chooseSplitPos_gt (text : List Char) (cur e : ℕ) (h : cur < e) :
    cur < chooseSplitPos text cur e := by
  rcases chooseSplitPos_cases text cur e with hc | ⟨hc, hgt⟩ | ⟨hc, hgt⟩ | ⟨hc, hgt⟩ <;>
    rw [hc] <;> omega

theorem splitPosAt_gt (text : List Char) (cur : ℕ) (h : cur < text.length) :
    cur < splitPosAt text cur := by
  simp only [splitPosAt]
  split_ifs with h1
  · exact chooseSplitPos_gt text cur _ (by rw [MAX_CHARS_val]; omega)
  · rw [MAX_CHARS_val]; omega

theorem splitPosAt_le (text : List Char) (cur : ℕ) :
    splitPosAt text cur ≤ text.length := by
  simp only [splitPosAt]
  split_ifs with h1
  · exact le_trans (chooseSplitPos_le text cur _) (le_of_lt h1)
  · omega

theorem splitPosAt_le_window (text : List Char) (cur : ℕ) :
    splitPosAt text cur ≤ cur + MAX_CHARS_PER_CHUNK := by
  simp only [splitPosAt]
  split_ifs with h1
  · exact le_trans (chooseSplitPos_le text cur _) (by omega)
  · omega

/-! ## Lemmas about the splitting loop -/

theorem mem_emitChunk {c x : List Char} (h : c ∈ emitChunk x) : c = x := by
  by_cases he : x.isEmpty
  · rw [emitChunk, if_pos he] at h
    cases h
  · rw [emitChunk, if_neg he] at h
    rw [List.mem_singleton] at h
    exact h

theorem emitChunk_flatten_filter (s : List Char) :
    filterNonWs (emitChunk (stripChars s)).flatten = filterNonWs s := by
  unfold emitChunk
  split_ifs with h
  · rw [List.isEmpty_iff] at h
    rw [List.flatten_nil, stripChars_eq_nil_filter h]
    rfl
  · simp only [List.flatten_cons, List.flatten_nil, List.append_nil]
    exact filterNonWs_stripChars s

theorem splitLoop_zero (text : List Char) (currentPos : ℕ) :
    splitLoop text 0 currentPos = none := rfl

theorem splitLoop_succ (text : List Char) (fuel currentPos : ℕ) :
    splitLoop text (fuel + 1) currentPos =
      (if currentPos < text.length then
        if splitPosAt text currentPos = min (currentPos + MAX_CHARS_PER_CHUNK) text.length
            ∧ min (currentPos + MAX_CHARS_PER_CHUNK) text.length = text.length then
          some (emitChunk (stripChars (sliceList text currentPos (splitPosAt text currentPos))))
        else if text.length ≤ splitPosAt text currentPos then
          some (emitChunk (stripChars (sliceList text currentPos (splitPosAt text currentPos))))
        else if splitPosAt text currentPos ≤ splitPosAt text currentPos
            ∧ splitPosAt text currentPos < text.length then
          (splitLoop text fuel
              (min (splitPosAt text currentPos + MAX_CHARS_PER_CHUNK) text.length)).map
            ((emitChunk (stripChars (sliceList text currentPos (splitPosAt text currentPos)))
              ++ emitChunk (stripChars (sliceList text (splitPosAt text currentPos)
                    (min (splitPosAt text currentPos + MAX_CHARS_PER_CHUNK) text.length)))) ++ ·)
        else
          (splitLoop text fuel (splitPosAt text currentPos)).map
            (emitChunk (stripChars (sliceList text currentPos (splitPosAt text currentPos))) ++ ·)
      else some []) := rfl

theorem splitLoop_chunk_le (text : List Char) :
    ∀ (fuel cur : ℕ) (cs : List (List Char)), splitLoop text fuel cur = some cs →
      ∀ c ∈ cs, c.length ≤ MAX_CHARS_PER_CHUNK := by
  intro fuel
  induction fuel with
  | zero =>
    intro cur cs h
    rw [splitLoop_zero] at h
    cases h
  | succ fuel ih =>
    intro cur cs h c hc
    by_cases hcur : cur < text.length
    · have hchunk1 : ∀ d ∈ emitChunk (stripChars (sliceList text cur (splitPosAt text cur))),
          d.length ≤ MAX_CHARS_PER_CHUNK := by
        intro d hd
        rw [mem_emitChunk hd]
        calc (stripChars (sliceList text cur (splitPosAt text cur))).length
            ≤ (sliceList text cur (splitPosAt text cur)).length := stripChars_length_le _
          _ = min (splitPosAt text cur) text.length - cur := slice_length _ _ _
          _ ≤ MAX_CHARS_PER_CHUNK := by
              have := splitPosAt_le_window text cur
              omega
      have hchunk2 : ∀ d ∈ emitChunk (stripChars (sliceList text (splitPosAt text cur)
          (min (splitPosAt text cur + MAX_CHARS_PER_CHUNK) text.length))),
          d.length ≤ MAX_CHARS_PER_CHUNK := by
        intro d hd
        rw [mem_emitChunk hd]
        calc (stripChars (sliceList text (splitPosAt text cur)
              (min (splitPosAt text cur + MAX_CHARS_PER_CHUNK) text.length))).length
            ≤ (sliceList text (splitPosAt text cur)
              (min (splitPosAt text cur + MAX_CHARS_PER_CHUNK) text.length)).length :=
              stripChars_length_le _
          _ = min (min (splitPosAt text cur + MAX_CHARS_PER_CHUNK) text.length) text.length
              - splitPosAt text cur := slice_length _ _ _
          _ ≤ MAX_CHARS_PER_CHUNK := by omega
      rw [splitLoop_succ, if_pos hcur] at h
      split_ifs at h with h1 h2 h3
      · cases h; exact hchunk1 c hc
      · cases h; exact hchunk1 c hc
      · rcases Option.map_eq_some'.1 h with ⟨as, has, hcs⟩
        subst hcs
        rcases List.mem_append.1 hc with hc | hc
        · rcases List.mem_append.1 hc with hc | hc
          · exact hchunk1 c hc
          · exact hchunk2 c hc
        · exact ih _ as has c hc
      · exact absurd ⟨le_refl _, by omega⟩ h3
    · rw [splitLoop_succ, if_neg hcur] at h
      cases h
      cases hc

theorem splitLoop_isSome (text : List Char) :
    ∀ (fuel cur : ℕ), text.length ≤ cur + fuel * (MAX_CHARS_PER_CHUNK + 1) →
      (splitLoop text (fuel + 1) cur).isSome = true := by
  intro fuel
  induction fuel with
  | zero =>
    intro cur h
    have hncur : ¬cur < text.length := by omega
    rw [splitLoop_succ, if_neg hncur]
    rfl
  | succ fuel ih =>
    intro cur h
    by_cases hcur : cur < text.length
    · rw [splitLoop_succ, if_pos hcur]
      split_ifs with h1 h2 h3
      · rfl
      · rfl
      · rw [Option.isSome_map']
        apply ih
        have hgt := splitPosAt_gt text cur hcur
        rw [MAX_CHARS_val] at h ⊢
        omega
      · exact absurd ⟨le_refl _, by omega⟩ h3
    · rw [splitLoop_succ, if_neg hcur]
      rfl

theorem splitLoop_content (text : List Char) :
    ∀ (fuel cur : ℕ) (cs : List (List Char)), splitLoop text fuel cur = some cs →
      filterNonWs cs.flatten = filterNonWs (text.drop cur) := by
  intro fuel
  induction fuel with
  | zero =>
    intro cur cs h
    rw [splitLoop_zero] at h
    cases h
  | succ fuel ih =>
    intro cur cs h
    by_cases hcur : cur < text.length
    · have hgt := splitPosAt_gt text cur hcur
      have hle := splitPosAt_le text cur
      have hdecomp1 : text.drop cur
          = sliceList text cur (splitPosAt text cur) ++ text.drop (splitPosAt text cur) :=
        slice_decomp text cur _ (le_of_lt hgt) hle
      rw [splitLoop_succ, if_pos hcur] at h
      split_ifs at h with h1 h2 h3
      · cases h
        have hsplit : splitPosAt text cur = text.length := by
          rcases h1 with ⟨ha, hb⟩
          omega
        rw [hdecomp1, hsplit, List.drop_length, List.append_nil]
        exact emitChunk_flatten_filter _
      · cases h
        have hsplit : splitPosAt text cur = text.length := by omega
        rw [hdecomp1, hsplit, List.drop_length, List.append_nil]
        exact emitChunk_flatten_filter _
      · rcases Option.map_eq_some'.1 h with ⟨as, has, hcs⟩
        subst hcs
        have hfe_ge : splitPosAt text cur
            ≤ min (splitPosAt text cur + MAX_CHARS_PER_CHUNK) text.length := by omega
        have hfe_le : min (splitPosAt text cur + MAX_CHARS_PER_CHUNK) text.length
            ≤ text.length := by omega
        have hdecomp2 : text.drop (splitPosAt text cur)
            = sliceList text (splitPosAt text cur)
                (min (splitPosAt text cur + MAX_CHARS_PER_CHUNK) text.length)
              ++ text.drop (min (splitPosAt text cur + MAX_CHARS_PER_CHUNK) text.length) :=
          slice_decomp text _ _ hfe_ge hfe_le
        rw [List.append_assoc, List.flatten_append, List.flatten_append]
        unfold filterNonWs
        rw [List.filter_append, List.filter_append]
        have hih := ih _ as has
        unfold filterNonWs at hih
        rw [hih, hdecomp1, hdecomp2]
        rw [List.filter_append, List.filter_append]
        have he1 := emitChunk_flatten_filter (sliceList text cur (splitPosAt text cur))
        have he2 := emitChunk_flatten_filter (sliceList text (splitPosAt text cur)
          (min (splitPosAt text cur + MAX_CHARS_PER_CHUNK) text.length))
        unfold filterNonWs at he1 he2
        rw [he1, he2]
      · exact absurd ⟨le_refl _, by omega⟩ h3
    · rw [splitLoop_succ, if_neg hcur] at h
      cases h
      rw [List.drop_eq_nil_of_le (by omega)]
      rfl

/-! ## Lemmas about the splitter wrapper -/

theorem flatten_filter_nonempty (l : List (List Char)) :
    (l.filter (fun c => !c.isEmpty)).flatten = l.flatten := by
  induction l with
  | nil => rfl
  | cons c cs ih =>
    rw [List.filter_cons]
    by_cases h : c.isEmpty
    · rw [if_neg (by simp [h]), ih, List.flatten_cons]
      rw [List.isEmpty_iff] at h
      rw [h, List.nil_append]
    · rw [if_pos (by simp [h]), List.flatten_cons, List.flatten_cons, ih]

theorem splitTextIntoChunks_long (text : List Char)
    (h : MAX_CHARS_PER_CHUNK < text.length) :
    splitTextIntoChunks text
      = ((splitLoop text (text.length + 1) 0).getD []).filter (fun c => !c.isEmpty) := by
  have hcond : ¬((text.isEmpty || decide (text.length ≤ MAX_CHARS_PER_CHUNK)) = true) := by
    simp only [Bool.or_eq_true, decide_eq_true_eq, List.isEmpty_iff]
    push_neg
    constructor
    · intro hnil
      rw [hnil] at h
      simp at h
    · omega
  unfold splitTextIntoChunks
  rw [if_neg hcond]

theorem splitLoop_top_isSome (text : List Char)
    (h : MAX_CHARS_PER_CHUNK < text.length) :
    (splitLoop text (text.length + 1) 0).isSome = true := by
  have h1 : text.length ≤ 0 + text.length * (MAX_CHARS_PER_CHUNK + 1) := by
    rw [MAX_CHARS_val]
    omega
  exact splitLoop_isSome text text.length 0 h1

/-! ## Lemmas about the chunk-summarisation loop -/

theorem processChunks_length (send : List Char → List Char → List Char)
    (custom : List Char) (n : ℕ) :
    ∀ (cs : List (List Char)) (i : ℕ),
      (processChunks send custom n cs i).1.length = cs.length := by
  intro cs
  induction cs with
  | nil => intro i; rfl
  | cons c rest ih =>
    intro i
    simp only [processChunks, List.length_cons]
    rw [ih]

theorem processChunks_reqs (send : List Char → List Char → List Char)
    (custom : List Char) (n : ℕ) :
    ∀ (cs : List (List Char)) (i : ℕ),
      (processChunks send custom n cs i).2.2 = expectedChunkReqs custom n cs i := by
  intro cs
  induction cs with
  | nil => intro i; rfl
  | cons c rest ih =>
    intro i
    simp only [processChunks, expectedChunkReqs]
    rw [ih]

theorem expectedChunkReqs_length (custom : List Char) (n : ℕ) :
    ∀ (cs : List (List Char)) (i : ℕ),
      (expectedChunkReqs custom n cs i).length = cs.length := by
  intro cs
  induction cs with
  | nil => intro i; rfl
  | cons c rest ih =>
    intro i
    simp only [expectedChunkReqs, List.length_cons]
    rw [ih]

theorem processChunks_get? (send : List Char → List Char → List Char)
    (custom : List Char) (n : ℕ) :
    ∀ (cs : List (List Char)) (i j : ℕ),
      (processChunks send custom n cs i).1.get? j
        = (cs.get? j).map (fun chunk =>
            let resp := send (chunkPrompt custom chunk) (chunkContext (i + j + 1) n)
            if startsWithList errorTag resp then chunkErrorEntry (i + j + 1) resp
            else resp) := by
  intro cs
  induction cs with
  | nil => intro i j; cases j <;> rfl
  | cons c rest ih =>
    intro i j
    cases j with
    | zero => rfl
    | succ j =>
      simp only [processChunks, List.get?_cons_succ]
      rw [ih (i + 1) j]
      have : i + 1 + j + 1 = i + (j + 1) + 1 := by omega
      rw [this]

theorem summarizeText_multi (send : List Char → List Char → List Char)
    (text custom : List Char) (h1 : text.isEmpty = false)
    (h2 : (stripChars text).isEmpty = false)
    (hN : 2 ≤ (splitTextIntoChunks text).length) :
    summarizeText send text custom
      = (if MAX_COMBINED_SUMMARY_CHARS
            < (List.intercalate summarySep
                (processChunks send custom (splitTextIntoChunks text).length
                  (splitTextIntoChunks text) 0).1).length
          ∨ (processChunks send custom (splitTextIntoChunks text).length
                (splitTextIntoChunks text) 0).2.1 = true then
         (skipNotice
            ++ List.intercalate summarySep
                (processChunks send custom (splitTextIntoChunks text).length
                  (splitTextIntoChunks text) 0).1,
          (processChunks send custom (splitTextIntoChunks text).length
            (splitTextIntoChunks text) 0).2.2)
       else
         (send (synthesisPrompt custom
            (List.intercalate summarySep
              (processChunks send custom (splitTextIntoChunks text).length
                (splitTextIntoChunks text) 0).1)) [],
          (processChunks send custom (splitTextIntoChunks text).length
            (splitTextIntoChunks text) 0).2.2
            ++ [(synthesisPrompt custom
                  (List.intercalate summarySep
                    (processChunks send custom (splitTextIntoChunks text).length
                      (splitTextIntoChunks text) 0).1), [])])) := by
  unfold summarizeText
  rw [if_neg (by rw [h1, h2]; simp)]
  rw [if_neg (by omega)]
  rw [if_neg (by omega)]
  rw [if_neg (by
    rw [List.isEmpty_iff]
    intro hnil
    have := processChunks_length send custom (splitTextIntoChunks text).length
      (splitTextIntoChunks text) 0
    rw [hnil] at this
    simp at this
    omega)]

theorem intercalate_pair (sep a b : List Char) :
    List.intercalate sep [a, b] = a ++ sep ++ b := by
  simp [List.intercalate]

/-! ## Lemmas about substring occurrence and the page merger -/

theorem occursIn_append_left (m x y : List Char) (h : occursIn m y) :
    occursIn m (x ++ y) := by
  rcases h with ⟨a, b, hab⟩
  exact ⟨x ++ a, b, by rw [hab]; simp [List.append_assoc]⟩

theorem occursIn_stripChars (l m : List Char) (hm : occursIn m l)
    (hhead : ∃ c t, l = c :: t ∧ isPySpace c = false)
    (hlast : ∃ m1 cl, m = m1 ++ [cl] ∧ isPySpace cl = false) :
    occursIn m (stripChars l) := by
  rcases hm with ⟨a, b, hab⟩
  rcases hhead with ⟨c, t, hl, hc⟩
  rcases hlast with ⟨m1, cl, hmeq, hcl⟩
  have hdw : l.dropWhile isPySpace = l := by
    rw [hl, List.dropWhile_cons_of_neg (by simp [hc])]
  unfold stripChars
  rw [hdw]
  subst hmeq
  subst hab
  have hrev : (a ++ (m1 ++ [cl]) ++ b).reverse
      = b.reverse ++ (cl :: (m1.reverse ++ a.reverse)) := by
    simp [List.reverse_append, List.append_assoc]
  rw [hrev, List.dropWhile_append]
  by_cases hbe : (b.reverse.dropWhile isPySpace).isEmpty
  · rw [if_pos hbe, List.dropWhile_cons_of_neg (by simp [hcl])]
    refine ⟨a, [], ?_⟩
    simp [List.reverse_append, List.append_assoc]
  · rw [if_neg hbe]
    refine ⟨a, (b.reverse.dropWhile isPySpace).reverse, ?_⟩
    simp [List.reverse_append, List.append_assoc]

theorem mergeGo_cons (imageTextDict : ℕ → Option (List Char)) (page : List Char)
    (rest : List (List Char)) (i : ℕ) :
    mergeGo imageTextDict (page :: rest) i
      = mergePageBlock imageTextDict page i ++ mergeGo imageTextDict rest (i + 1) := rfl

theorem mergePageBlock_split (imageTextDict : ℕ → Option (List Char))
    (page : List Char) (i : ℕ) :
    ∃ front, mergePageBlock imageTextDict page i = front ++ "\n".data := by
  unfold mergePageBlock
  refine ⟨"--- Page ".data ++ natStr (i + 1) ++ " ---\n".data ++ page ++ "\n".data
    ++ (match imageTextDict i with
        | some t =>
          if (stripChars t).isEmpty then []
          else
            "\n[Image Text Extracted via OCR on Page ".data ++ natStr (i + 1)
              ++ "]\n".data ++ t ++ "\n".data
        | none => []), ?_⟩
  simp [List.append_assoc]


theorem mergePageBlock_front (imageTextDict : ℕ → Option (List Char))
    (page : List Char) (i : ℕ) :
    ∃ tail, mergePageBlock imageTextDict page i
      = "--- Page ".data ++ natStr (i + 1) ++ (" ---".data ++ ("\n".data ++ tail)) := by
  unfold mergePageBlock
  refine ⟨page ++ "\n".data
    ++ (match imageTextDict i with
        | some t =>
          if (stripChars t).isEmpty then []
          else
            "\n[Image Text Extracted via OCR on Page ".data ++ natStr (i + 1)
              ++ "]\n".data ++ t ++ "\n".data
        | none => [])
    ++ "\n".data, ?_⟩
  have h2 : (" ---\n".data : List Char) = " ---".data ++ "\n".data := rfl
  rw [h2]
  simp [List.append_assoc]

theorem mergeGo_marker (imageTextDict : ℕ → Option (List Char)) :
    ∀ (pages : List (List Char)) (i j : ℕ), 1 ≤ i → i < pages.length →
      occursIn ("\n--- Page ".data ++ natStr (j + i + 1) ++ " ---".data)
        (mergeGo imageTextDict pages j) := by
  intro pages
  induction pages with
  | nil =>
    intro i j _ hlt
    simp at hlt
  | cons page rest ih =>
    intro i j h1 hlt
    obtain ⟨i2, rfl⟩ : ∃ i2, i = i2 + 1 := ⟨i - 1, by omega⟩
    rw [mergeGo_cons]
    cases i2 with
    | zero =>
      obtain ⟨q, rest2, rfl⟩ : ∃ q rest2, rest = q :: rest2 := by
        cases rest with
        | nil => simp at hlt
        | cons q rest2 => exact ⟨q, rest2, rfl⟩
      rcases mergePageBlock_split imageTextDict page j with ⟨front, hfront⟩
      rcases mergePageBlock_front imageTextDict q (j + 1) with ⟨tail, hq⟩
      rw [mergeGo_cons, hfront, hq]
      refine ⟨front, "\n".data ++ (tail ++ mergeGo imageTextDict rest2 (j + 1 + 1)), ?_⟩
      have h1eq : ("\n--- Page ".data : List Char) = "\n".data ++ "--- Page ".data := rfl
      have harith : j + 0 + 1 + 1 = j + 1 + 1 := by omega
      rw [h1eq, harith]
      simp only [List.append_assoc]
    | succ i3 =>
      have := ih (i3 + 1) (j + 1) (by omega) (by simp at hlt; omega)
      have harith : j + 1 + (i3 + 1) + 1 = j + (i3 + 1 + 1) + 1 := by omega
      rw [harith] at this
      exact occursIn_append_left _ _ _ this

theorem mergeTextAndImages_marker (pdfTextPages : List (List Char))
    (imageTextDict : ℕ → Option (List Char)) (i : ℕ) (h1 : 1 ≤ i)
    (hlt : i < pdfTextPages.length) :
    occursIn ("\n--- Page ".data ++ natStr (i + 1) ++ " ---".data)
      (mergeTextAndImages pdfTextPages imageTextDict) := by
  unfold mergeTextAndImages
  have hocc := mergeGo_marker imageTextDict pdfTextPages i 0 h1 hlt
  rw [(by omega : 0 + i + 1 = i + 1)] at hocc
  obtain ⟨p, rest, rfl⟩ : ∃ p rest, pdfTextPages = p :: rest := by
    cases pdfTextPages with
    | nil => simp at hlt
    | cons p rest => exact ⟨p, rest, rfl⟩
  apply occursIn_stripChars _ _ hocc
  · exact ⟨'-', _, rfl, by decide⟩
  · refine ⟨"\n--- Page ".data ++ natStr (i + 1) ++ " --".data, '-', ?_, by decide⟩
    have h3 : (" ---".data : List Char) = " --".data ++ ['-'] := rfl
    rw [h3]
    simp [List.append_assoc]

/-! ## A concrete text exceeding the chunk budget, used for closed runs

`bigText` is 15008 characters: 14900 `'a'`s, then the page marker
`"\n--- Page"`, then 87 `'b'`s, then a paragraph break `"\n\n"`, then 10
`'c'`s.  Inside the first window `[0, 15000)` the last page marker sits at
14900 and the last paragraph break at 14996. -/

theorem aBlock_length : aBlock.length = 14900 := by
  rw [aBlock, List.length_replicate]

theorem bBlock_length : bBlock.length = 87 := by
  rw [bBlock, List.length_replicate]

theorem cBlock_length : cBlock.length = 10 := by
  rw [cBlock, List.length_replicate]

theorem bigText_length : bigText.length = 15008 := by
  rw [bigText, List.length_append, List.length_append, List.length_append,
    List.length_append, aBlock_length, bBlock_length, cBlock_length,
    pageMarker_length, paraSep_length]

theorem bigText_get_a (j : ℕ) (h : j < 14900) : bigText[j]? = some 'a' := by
  rw [bigText, List.getElem?_append_left (by rw [aBlock_length]; omega)]
  rw [aBlock]
  exact List.getElem?_replicate_of_lt h

theorem bigText_get_marker (k : ℕ) (h : k < 9) :
    bigText[14900 + k]? = pageMarker[k]? := by
  rw [bigText, List.getElem?_append_right (by rw [aBlock_length]; omega)]
  rw [aBlock_length, (by omega : 14900 + k - 14900 = k)]
  rw [List.getElem?_append_left (by rw [pageMarker_length]; omega)]

theorem bigText_get_b (k : ℕ) (h : k < 87) : bigText[14909 + k]? = some 'b' := by
  rw [bigText, List.getElem?_append_right (by rw [aBlock_length]; omega)]
  rw [aBlock_length, (by omega : 14909 + k - 14900 = 9 + k)]
  rw [List.getElem?_append_right (by rw [pageMarker_length]; omega)]
  rw [pageMarker_length, (by omega : 9 + k - 9 = k)]
  rw [List.getElem?_append_left (by rw [bBlock_length]; omega)]
  rw [bBlock]
  exact List.getElem?_replicate_of_lt h

theorem bigText_get_nl2 : bigText[14997]? = some '\n' := by
  rw [bigText, List.getElem?_append_right (by rw [aBlock_length]; omega)]
  rw [aBlock_length, (by omega : 14997 - 14900 = 97)]
  rw [List.getElem?_append_right (by rw [pageMarker_length]; omega)]
  rw [pageMarker_length, (by omega : 97 - 9 = 88)]
  rw [List.getElem?_append_right (by rw [bBlock_length]; omega)]
  rw [bBlock_length, (by omega : 88 - 87 = 1)]
  rw [List.getElem?_append_left (by rw [paraSep_length]; omega)]
  rfl

theorem bigText_get_c (k : ℕ) (h : k < 10) : bigText[14998 + k]? = some 'c' := by
  rw [bigText, List.getElem?_append_right (by rw [aBlock_length]; omega)]
  rw [aBlock_length, (by omega : 14998 + k - 14900 = 98 + k)]
  rw [List.getElem?_append_right (by rw [pageMarker_length]; omega)]
  rw [pageMarker_length, (by omega : 98 + k - 9 = 89 + k)]
  rw [List.getElem?_append_right (by rw [bBlock_length]; omega)]
  rw [bBlock_length, (by omega : 89 + k - 87 = 2 + k)]
  rw [List.getElem?_append_right (by rw [paraSep_length]; omega)]
  rw [paraSep_length, (by omega : 2 + k - 2 = k)]
  rw [cBlock]
  exact List.getElem?_replicate_of_lt h

theorem bigText_drop_14900 :
    bigText.drop 14900 = pageMarker ++ (bBlock ++ (paraSep ++ cBlock)) := by
  rw [bigText, List.drop_left' aBlock_length]

theorem bigText_drop_14996 : bigText.drop 14996 = paraSep ++ cBlock := by
  rw [bigText, (by rw [aBlock_length] : (14996 : ℕ) = aBlock.length + 96),
    List.drop_append]
  rw [(by rw [pageMarker_length] : (96 : ℕ) = pageMarker.length + 87),
    List.drop_append]
  rw [(by rw [bBlock_length] : (87 : ℕ) = bBlock.length + 0), List.drop_append]
  rfl

theorem bigText_drop_14998 : bigText.drop 14998 = cBlock := by
  have h : (bigText.drop 14996).drop 2 = bigText.drop 14998 := by
    rw [List.drop_drop]
  rw [← h, bigText_drop_14996, List.drop_left' paraSep_length]

theorem bigText_take_14998 :
    bigText.take 14998 = aBlock ++ (pageMarker ++ (bBlock ++ paraSep)) := by
  rw [bigText, (by rw [aBlock_length] : (14998 : ℕ) = aBlock.length + 98),
    List.take_append]
  rw [(by rw [pageMarker_length] : (98 : ℕ) = pageMarker.length + 89),
    List.take_append]
  rw [(by rw [bBlock_length] : (89 : ℕ) = bBlock.length + 2), List.take_append]
  rw [List.take_left' paraSep_length]

theorem startsWith_drop_false1 (text : List Char) (p : Char) (ps : List Char)
    (j : ℕ) (c : Char) (h : text[j]? = some c) (hne : (p == c) = false) :
    startsWithList (p :: ps) (text.drop j) = false := by
  rcases List.getElem?_eq_some.1 h with ⟨hj, hc⟩
  rw [List.drop_eq_getElem_cons hj, hc]
  exact startsWithList_head_false _ _ hne

theorem startsWith_drop_false2 (text : List Char) (p q : Char) (ps : List Char)
    (j : ℕ) (c : Char) (h : text[j + 1]? = some c) (hne : (q == c) = false) :
    startsWithList (p :: q :: ps) (text.drop j) = false := by
  rcases List.getElem?_eq_some.1 h with ⟨hj1, hc⟩
  have hj : j < text.length := by omega
  rw [List.drop_eq_getElem_cons hj, List.drop_eq_getElem_cons hj1, hc]
  simp [startsWithList, hne]

theorem pageMarker_char_ne (k : ℕ) (h1 : 1 ≤ k) (h2 : k < 9) :
    ∃ c, pageMarker[k]? = some c ∧ ('\n' == c) = false := by
  interval_cases k <;> exact ⟨_, rfl, by decide⟩

theorem bigText_no_page_match (j : ℕ) (h1 : j < 14992) (h2 : j ≠ 14900) :
    startsWithList pageMarker (bigText.drop j) = false := by
  have hpm : pageMarker = '\n' :: "--- Page".data := rfl
  by_cases hj : j < 14900
  · rw [hpm]
    exact startsWith_drop_false1 _ _ _ _ _ (bigText_get_a j hj) (by decide)
  · by_cases hj2 : j < 14909
    · obtain ⟨k, hk, rfl⟩ : ∃ k, k < 9 ∧ j = 14900 + k := ⟨j - 14900, by omega, by omega⟩
      rcases pageMarker_char_ne k (by omega) hk with ⟨c, hck, hcne⟩
      have hget : bigText[14900 + k]? = some c := by
        rw [bigText_get_marker k hk, hck]
      rw [hpm]
      exact startsWith_drop_false1 _ _ _ _ _ hget hcne
    · obtain ⟨k, hk, rfl⟩ : ∃ k, k < 87 ∧ j = 14909 + k := ⟨j - 14909, by omega, by omega⟩
      rw [hpm]
      exact startsWith_drop_false1 _ _ _ _ _ (bigText_get_b k hk) (by decide)

theorem rfind_page_bigText : rfindList bigText pageMarker 0 15000 = 14900 := by
  unfold rfindList
  have h0 : bigText = bigText.drop 0 := (List.drop_zero _).symm
  conv_lhs => rw [h0]
  rw [rfindGo_skip bigText pageMarker 0 15000 14900 0 (-1)
    (fun j hj1 hj2 => by
      rw [bigText_no_page_match j (by omega) (by omega)]
      simp)
    (by rw [pageMarker_length] <;> omega)
    (by rw [pageMarker_length] <;> omega)
    (by rw [bigText_length]; omega)]
  rw [(by omega : 0 + 14900 = 14900)]
  rw [rfindGo_match_step bigText pageMarker 0 15000 14900 (-1)
    (by rw [bigText_length]; omega)
    (by rw [pageMarker_length] <;> omega)
    (by omega)
    (by rw [bigText_drop_14900]; exact startsWithList_append_self _ _)]
  rw [(by omega : (14900 : ℕ) + 1 = 14901)]
  rw [rfindGo_skip bigText pageMarker 0 15000 91 14901 ((14900 : ℕ) : Int)
    (fun j hj1 hj2 => by
      rw [bigText_no_page_match j (by omega) (by omega)]
      simp)
    (by rw [pageMarker_length] <;> omega)
    (by rw [pageMarker_length] <;> omega)
    (by rw [bigText_length]; omega)]
  rw [rfindGo_stop (by rw [pageMarker_length] <;> omega)]
  norm_num

theorem bigText_no_para_match (j : ℕ) (h1 : j < 14999) (h2 : j ≠ 14996) :
    startsWithList paraSep (bigText.drop j) = false := by
  have hps : paraSep = '\n' :: '\n' :: [] := rfl
  by_cases hj : j < 14900
  · rw [hps]
    exact startsWith_drop_false1 _ _ _ _ _ (bigText_get_a j hj) (by decide)
  · by_cases hj0 : j = 14900
    · subst hj0
      have hget : bigText[14900 + 1]? = some '-' := by
        rw [bigText_get_marker 1 (by omega)]
        rfl
      rw [hps]
      exact startsWith_drop_false2 _ _ _ _ _ _ hget (by decide)
    · by_cases hj2 : j < 14909
      · obtain ⟨k, hk1, hk, rfl⟩ : ∃ k, 1 ≤ k ∧ k < 9 ∧ j = 14900 + k :=
          ⟨j - 14900, by omega, by omega, by omega⟩
        rcases pageMarker_char_ne k hk1 hk with ⟨c, hck, hcne⟩
        have hget : bigText[14900 + k]? = some c := by
          rw [bigText_get_marker k hk, hck]
        rw [hps]
        exact startsWith_drop_false1 _ _ _ _ _ hget hcne
      · by_cases hj3 : j < 14996
        · obtain ⟨k, hk, rfl⟩ : ∃ k, k < 87 ∧ j = 14909 + k :=
            ⟨j - 14909, by omega, by omega⟩
          rw [hps]
          exact startsWith_drop_false1 _ _ _ _ _ (bigText_get_b k hk) (by decide)
        · by_cases hj4 : j = 14997
          · subst hj4
            have hget : bigText[14997 + 1]? = some 'c' := bigText_get_c 0 (by omega)
            rw [hps]
            exact startsWith_drop_false2 _ _ _ _ _ _ hget (by decide)
          · have hj5 : j = 14998 := by omega
            subst hj5
            have hget : bigText[14998]? = some 'c' := by
              have := bigText_get_c 0 (by omega)
              rwa [(by omega : 14998 + 0 = 14998)] at this
            rw [hps]
            exact startsWith_drop_false1 _ _ _ _ _ hget (by decide)

theorem rfind_para_bigText : rfindList bigText paraSep 0 15000 = 14996 := by
  unfold rfindList
  have h0 : bigText = bigText.drop 0 := (List.drop_zero _).symm
  conv_lhs => rw [h0]
  rw [rfindGo_skip bigText paraSep 0 15000 14996 0 (-1)
    (fun j hj1 hj2 => by
      rw [bigText_no_para_match j (by omega) (by omega)]
      simp)
    (by rw [paraSep_length] <;> omega)
    (by rw [paraSep_length] <;> omega)
    (by rw [bigText_length]; omega)]
  rw [(by omega : 0 + 14996 = 14996)]
  rw [rfindGo_match_step bigText paraSep 0 15000 14996 (-1)
    (by rw [bigText_length]; omega)
    (by rw [paraSep_length] <;> omega)
    (by omega)
    (by rw [bigText_drop_14996]; exact startsWithList_append_self _ _)]
  rw [(by omega : (14996 : ℕ) + 1 = 14997)]
  rw [rfindGo_skip bigText paraSep 0 15000 2 14997 ((14996 : ℕ) : Int)
    (fun j hj1 hj2 => by
      rw [bigText_no_para_match j (by omega) (by omega)]
      simp)
    (by rw [paraSep_length] <;> omega)
    (by rw [paraSep_length] <;> omega)
    (by rw [bigText_length]; omega)]
  rw [rfindGo_stop (by rw [paraSep_length] <;> omega)]
  norm_num

theorem dropWhile_append_all (u v : List Char)
    (h : ∀ c ∈ u, isPySpace c = true) :
    (u ++ v).dropWhile isPySpace = v.dropWhile isPySpace := by
  rw [List.dropWhile_append, if_pos]
  rw [List.isEmpty_iff, List.dropWhile_eq_nil_iff]
  exact h

theorem stripChars_append_ws (y w : List Char)
    (hw : ∀ c ∈ w, isPySpace c = true)
    (hhead : ∃ c t, y = c :: t ∧ isPySpace c = false)
    (hlast : ∃ y1 cl, y = y1 ++ [cl] ∧ isPySpace cl = false) :
    stripChars (y ++ w) = y := by
  rcases hhead with ⟨c, t, hy, hc⟩
  rcases hlast with ⟨y1, cl, hyl, hcl⟩
  unfold stripChars
  have h1 : (y ++ w).dropWhile isPySpace = y ++ w := by
    rw [hy, List.cons_append, List.dropWhile_cons_of_neg (by simp [hc])]
  rw [h1, List.reverse_append]
  rw [dropWhile_append_all w.reverse _ (fun d hd => hw d (List.mem_reverse.1 hd))]
  rw [hyl, List.reverse_append]
  have h2 : ([cl].reverse : List Char) = [cl] := rfl
  rw [h2, List.singleton_append, List.dropWhile_cons_of_neg (by simp [hcl])]
  have h3 : (cl :: y1.reverse).reverse = y1 ++ [cl] := by
    rw [List.reverse_cons, List.reverse_reverse]
  rw [h3]

theorem aBlock_cons : aBlock = 'a' :: List.replicate 14899 'a' := by
  rw [aBlock, (by omega : (14900 : ℕ) = 14899 + 1), List.replicate_succ]

theorem bBlock_last : bBlock = List.replicate 86 'b' ++ ['b'] := by
  rw [bBlock, (by omega : (87 : ℕ) = 86 + 1), List.replicate_succ']

theorem cBlock_cons : cBlock = 'c' :: List.replicate 9 'c' := by
  rw [cBlock, (by omega : (10 : ℕ) = 9 + 1), List.replicate_succ]

theorem cBlock_last : cBlock = List.replicate 9 'c' ++ ['c'] := by
  rw [cBlock, (by omega : (10 : ℕ) = 9 + 1), List.replicate_succ']

theorem bigChunk1_isEmpty : bigChunk1.isEmpty = false := by
  rw [bigChunk1, aBlock_cons]
  rfl

theorem cBlock_isEmpty : cBlock.isEmpty = false := by
  rw [cBlock_cons]
  rfl

theorem chunk1_eq : stripChars (sliceList bigText 0 14998) = bigChunk1 := by
  unfold sliceList
  rw [List.drop_zero, bigText_take_14998]
  have hassoc : aBlock ++ (pageMarker ++ (bBlock ++ paraSep)) = bigChunk1 ++ paraSep := by
    rw [bigChunk1]
    simp [List.append_assoc]
  rw [hassoc]
  apply stripChars_append_ws
  · decide
  · exact ⟨'a', List.replicate 14899 'a' ++ (pageMarker ++ bBlock),
      by rw [bigChunk1, aBlock_cons]; rfl, by decide⟩
  · refine ⟨aBlock ++ (pageMarker ++ List.replicate 86 'b'), 'b', ?_, by decide⟩
    rw [bigChunk1, bBlock_last]
    simp [List.append_assoc]

theorem chunk2_eq : stripChars (sliceList bigText 14998 15008) = cBlock := by
  unfold sliceList
  rw [List.take_of_length_le (by rw [bigText_length] <;> omega), bigText_drop_14998]
  have := stripChars_append_ws cBlock [] (by intro c hc; cases hc)
    ⟨'c', List.replicate 9 'c', cBlock_cons, by decide⟩
    ⟨List.replicate 9 'c', 'c', cBlock_last, by decide⟩
  rw [List.append_nil] at this
  exact this

theorem splitPosAt_bigText : splitPosAt bigText 0 = 14998 := by
  simp only [splitPosAt, MAX_CHARS_val, bigText_length]
  rw [if_pos (by omega)]
  rw [(by omega : min (0 + 15000) 15008 = 15000)]
  simp only [chooseSplitPos, rfind_page_bigText, rfind_para_bigText]
  norm_num
  decide

theorem bigText_chunks : splitTextIntoChunks bigText = [bigChunk1, cBlock] := by
  rw [splitTextIntoChunks_long bigText (by rw [bigText_length, MAX_CHARS_val] <;> omega)]
  rw [bigText_length]
  rw [splitLoop_succ, splitPosAt_bigText, bigText_length, MAX_CHARS_val]
  rw [if_pos (by omega)]
  rw [if_neg (by omega)]
  rw [if_neg (by omega)]
  rw [if_pos ⟨le_refl _, by omega⟩]
  rw [(by omega : min (14998 + 15000) 15008 = 15008)]
  rw [chunk1_eq, chunk2_eq]
  have hrec : splitLoop bigText 15008 15008 = some [] := by
    rw [(rfl : (15008 : ℕ) = 15007 + 1), splitLoop_succ]
    rw [if_neg (by rw [bigText_length]; omega)]
  rw [hrec]
  rw [emitChunk, if_neg (by rw [bigChunk1_isEmpty]; simp)]
  rw [emitChunk, if_neg (by rw [cBlock_isEmpty]; simp)]
  rw [Option.map_some', Option.getD_some]
  rw [List.singleton_append, List.cons_append, List.singleton_append]
  rw [List.filter_cons, if_pos (by rw [bigChunk1_isEmpty]; rfl)]
  rw [List.filter_cons, if_pos (by rw [cBlock_isEmpty]; rfl)]
  rfl

/-! ## Shared facts about the concrete runs -/

theorem MAX_COMBINED_val : MAX_COMBINED_SUMMARY_CHARS = 20000 := rfl

theorem summarySep_length : summarySep.length = 7 := rfl

theorem bigChunk1_length : bigChunk1.length = 14996 := by
  rw [bigChunk1, List.length_append, List.length_append, aBlock_length,
    pageMarker_length, bBlock_length]

theorem bigText_gt_budget : MAX_CHARS_PER_CHUNK < bigText.length := by
  rw [bigText_length, MAX_CHARS_val] <;> omega

theorem bigText_cons :
    bigText = 'a' :: (List.replicate 14899 'a' ++ (pageMarker ++ (bBlock ++ (paraSep ++ cBlock)))) := by
  rw [bigText, aBlock_cons]
  rfl

theorem bigText_isEmpty_false : bigText.isEmpty = false := by
  rw [bigText_cons]
  rfl

theorem bigText_strip_isEmpty_false : (stripChars bigText).isEmpty = false := by
  rw [bigText_cons, List.isEmpty_eq_false]
  exact stripChars_cons_ne_nil _ (by decide)

theorem bigText_two_chunks : 2 ≤ (splitTextIntoChunks bigText).length := by
  rw [bigText_chunks]
  decide

theorem startsWithList_append_of (p l m : List Char)
    (h : startsWithList p l = true) : startsWithList p (l ++ m) = true := by
  induction p generalizing l with
  | nil => rfl
  | cons c cs ih =>
    cases l with
    | nil => cases h
    | cons d ds =>
      rw [List.cons_append]
      simp only [startsWithList, Bool.and_eq_true] at h ⊢
      exact ⟨h.1, ih ds h.2⟩

theorem errorTag_replicate_x : startsWithList errorTag (List.replicate 10100 'x') = false := by
  rw [(by omega : (10100 : ℕ) = 10099 + 1), List.replicate_succ]
  decide

theorem chunkContext_one_isEmpty : (chunkContext 1 2).isEmpty = false := by decide

theorem chunkContext_two_isEmpty : (chunkContext 2 2).isEmpty = false := by decide

theorem processChunks_errRun :
    processChunks sendErrFirst demoInstr 2 [bigChunk1, cBlock] 0
      = ([chunkErrorEntry 1 "Error: boom".data, "OK".data], true,
         [(chunkPrompt demoInstr bigChunk1, chunkContext 1 2),
          (chunkPrompt demoInstr cBlock, chunkContext 2 2)]) := by
  have hs1 : sendErrFirst (chunkPrompt demoInstr bigChunk1) (chunkContext 1 2)
      = "Error: boom".data := by
    simp [sendErrFirst]
  have hs2 : sendErrFirst (chunkPrompt demoInstr cBlock) (chunkContext 2 2)
      = "OK".data := by
    simp only [sendErrFirst]
    rw [if_neg (by decide)]
  have he1 : startsWithList errorTag "Error: boom".data = true := by decide
  have he2 : startsWithList errorTag "OK".data = false := by decide
  simp only [processChunks, (by omega : (0 : ℕ) + 1 = 1), (by omega : (1 : ℕ) + 1 = 2)]
  rw [hs1, hs2, he1, he2]
  rfl

theorem processChunks_longRun :
    processChunks sendAllLong demoInstr 2 [bigChunk1, cBlock] 0
      = ([List.replicate 10100 'x', List.replicate 10100 'x'], false,
         [(chunkPrompt demoInstr bigChunk1, chunkContext 1 2),
          (chunkPrompt demoInstr cBlock, chunkContext 2 2)]) := by
  have hs1 : sendAllLong (chunkPrompt demoInstr bigChunk1) (chunkContext 1 2)
      = List.replicate 10100 'x' := by
    simp only [sendAllLong]
    rw [if_neg (by rw [chunkContext_one_isEmpty]; simp)]
  have hs2 : sendAllLong (chunkPrompt demoInstr cBlock) (chunkContext 2 2)
      = List.replicate 10100 'x' := by
    simp only [sendAllLong]
    rw [if_neg (by rw [chunkContext_two_isEmpty]; simp)]
  simp only [processChunks, (by omega : (0 : ℕ) + 1 = 1), (by omega : (1 : ℕ) + 1 = 2)]
  rw [hs1, hs2, errorTag_replicate_x]
  rfl

/-! ## Claim theorems -/

/-- C1 (counterexample).  For the concrete `bigText` (longer than the chunk
budget), the first window `[0, 15000)` contains a page-boundary marker
strictly after the cursor (the last one at 14900), yet the splitter does
not cut there: its first chunk is `bigChunk1`, which is not the text up to
the page marker (it strictly contains it), because the later paragraph
break at 14996 wins.  This refutes the claim that a paragraph break is
considered only when no page-boundary marker exists in the window. -/
theorem claim1_counterexample :
    MAX_CHARS_PER_CHUNK < bigText.length ∧
    (0 : Int) < rfindList bigText pageMarker 0 15000 ∧
    rfindList bigText pageMarker 0 15000 = 14900 ∧
    (splitTextIntoChunks bigText).head? = some bigChunk1 ∧
    bigChunk1 ≠ stripChars (sliceList bigText 0 14900) := by
  refine ⟨bigText_gt_budget, ?_, rfind_page_bigText, ?_, ?_⟩
  · rw [rfind_page_bigText]; omega
  · rw [bigText_chunks]; rfl
  · intro h
    have hlen := congrArg List.length h
    rw [bigChunk1_length] at hlen
    have h1 : (stripChars (sliceList bigText 0 14900)).length
        ≤ (sliceList bigText 0 14900).length := stripChars_length_le _
    rw [slice_length, bigText_length] at h1
    omega

/-- C1 (amended).  Inside a window, when the last page-boundary marker lies
strictly after the cursor, the splitter cuts at that marker unless the last
paragraph break lies strictly after the marker, in which case it cuts just
after the paragraph break; when neither the page marker nor the paragraph
break lies strictly after the cursor, sentence punctuation decides (else
the window end). -/
theorem claim1_theorem (text : List Char) (cur endPos : ℕ) :
    ((cur : Int) < rfindList text pageMarker cur endPos →
      chooseSplitPos text cur endPos =
        (if rfindList text pageMarker cur endPos < rfindList text paraSep cur endPos
         then (rfindList text paraSep cur endPos + 2).toNat
         else (rfindList text pageMarker cur endPos).toNat)) ∧
    ((cur : Int) < rfindList text paraSep cur endPos →
      rfindList text pageMarker cur endPos ≤ (cur : Int) →
      chooseSplitPos text cur endPos = (rfindList text paraSep cur endPos + 2).toNat) ∧
    (rfindList text pageMarker cur endPos ≤ (cur : Int) →
      rfindList text paraSep cur endPos ≤ (cur : Int) →
      chooseSplitPos text cur endPos =
        (if (cur : Int) < sentenceBreakAt text cur endPos
         then (sentenceBreakAt text cur endPos).toNat else endPos)) := by
  refine ⟨?_, ?_, ?_⟩
  · intro hpb
    simp only [chooseSplitPos, gt_iff_lt, Bool.and_eq_true, decide_eq_true_eq]
    split_ifs <;> omega
  · intro hpa hpb
    simp only [chooseSplitPos, gt_iff_lt, Bool.and_eq_true, decide_eq_true_eq]
    split_ifs <;> omega
  · intro hpb hpa
    simp only [chooseSplitPos, gt_iff_lt, Bool.and_eq_true, decide_eq_true_eq]
    split_ifs <;> omega

/-- C1 (witness for the amended theorem): on `demo1` with window `[0, 15)`
the page marker sits at 2 and there is no paragraph break, so the cut is at
the marker. -/
theorem claim1_witness :
    (0 : Int) < rfindList demo1 pageMarker 0 15 ∧
    chooseSplitPos demo1 0 15 =
      (if rfindList demo1 pageMarker 0 15 < rfindList demo1 paraSep 0 15
       then (rfindList demo1 paraSep 0 15 + 2).toNat
       else (rfindList demo1 pageMarker 0 15).toNat) :=
  ⟨by decide, (claim1_theorem demo1 0 15).1 (by decide)⟩

/-- C2 (counterexample).  The short-text path returns the input verbatim:
`" a "` (within the budget) yields the single untrimmed chunk `" a "`, and
the whitespace-only input `" "` yields one chunk rather than zero. -/
theorem claim2_counterexample :
    splitTextIntoChunks " a ".data = [" a ".data] ∧
    " a ".data ≠ stripChars " a ".data ∧
    splitTextIntoChunks " ".data = [" ".data] ∧
    " ".data ≠ ([] : List Char) :=
  ⟨by decide, by decide, by decide, by decide⟩

/-- C2 (amended).  Empty input yields zero chunks; non-empty input within
the budget yields exactly one chunk equal to the input verbatim (not
trimmed), so a whitespace-only input yields one whitespace chunk. -/
theorem claim2_theorem (text : List Char) :
    (text = [] → splitTextIntoChunks text = []) ∧
    (text ≠ [] → text.length ≤ MAX_CHARS_PER_CHUNK → splitTextIntoChunks text = [text]) := by
  constructor
  · intro h
    subst h
    rfl
  · intro h1 h2
    unfold splitTextIntoChunks
    rw [if_pos (by rw [decide_eq_true h2, Bool.or_true])]
    rw [if_neg (by simp [List.isEmpty_iff, h1])]

/-- C2 (witness): `"hi"` is non-empty and within the budget, so it comes
back as the single chunk `"hi"`. -/
theorem claim2_witness :
    ("hi".data ≠ ([] : List Char)) ∧ "hi".data.length ≤ MAX_CHARS_PER_CHUNK ∧
    splitTextIntoChunks "hi".data = ["hi".data] :=
  ⟨by decide, by decide, ( claim2_theorem "hi".data).2 (by decide) (by decide)⟩

/-- C6.  For text longer than the budget, every chunk produced by the
splitter has length at most `MAX_CHARS_PER_CHUNK` and is non-empty. -/
theorem claim6_theorem (text : List Char) (h : MAX_CHARS_PER_CHUNK < text.length) :
    ∀ c ∈ splitTextIntoChunks text, c.length ≤ MAX_CHARS_PER_CHUNK ∧ c ≠ [] := by
  intro c hc
  rw [splitTextIntoChunks_long text h] at hc
  have hmem := List.mem_filter.1 hc
  constructor
  · cases hopt : splitLoop text (text.length + 1) 0 with
    | none =>
      rw [hopt] at hmem
      cases hmem.1
    | some cs =>
      rw [hopt] at hmem
      exact splitLoop_chunk_le text _ 0 cs hopt c hmem.1
  · have h2 := hmem.2
    intro hnil
    subst hnil
    simp at h2

/-- C6 (witness): the 15008-character `bigText` exceeds the budget, and
all its chunks are short enough and non-empty. -/
theorem claim6_witness :
    MAX_CHARS_PER_CHUNK < bigText.length ∧
    ∀ c ∈ splitTextIntoChunks bigText, c.length ≤ MAX_CHARS_PER_CHUNK ∧ c ≠ [] :=
  ⟨bigText_gt_budget, claim6_theorem bigText bigText_gt_budget⟩

/-- C7.  The cursor strictly advances at every loop iteration (the chosen
`split_pos` strictly exceeds the cursor whenever the cursor has not reached
the end), and for every input the loop finishes within
`text.length / MAX_CHARS_PER_CHUNK + 2` iterations of fuel — in particular
it terminates on marker-free adversarial input. -/
theorem claim7_theorem :
    (∀ (text : List Char) (cur : ℕ), cur < text.length → cur < splitPosAt text cur) ∧
    (∀ text : List Char,
      (splitLoop text (text.length / MAX_CHARS_PER_CHUNK + 2) 0).isSome = true) := by
  constructor
  · exact fun text cur h => splitPosAt_gt text cur h
  · intro text
    have h := splitLoop_isSome text (text.length / MAX_CHARS_PER_CHUNK + 1) 0
      (by rw [MAX_CHARS_val]; omega)
    exact h

/-- C7 (witness): on `demo1` the first iteration advances the cursor from
0, and the loop completes within the stated fuel. -/
theorem claim7_witness :
    0 < demo1.length ∧ 0 < splitPosAt demo1 0 ∧
    (splitLoop demo1 (demo1.length / MAX_CHARS_PER_CHUNK + 2) 0).isSome = true :=
  ⟨by decide, claim7_theorem.1 demo1 0 (by decide), claim7_theorem.2 demo1⟩

/-- C8.  Chunking preserves the non-whitespace content of the input in
order: filtering whitespace out of the concatenation of all chunks gives
exactly the input with whitespace filtered out, so no content character is
dropped or duplicated at a chunk boundary. -/
theorem claim8_theorem (text : List Char) :
    filterNonWs (splitTextIntoChunks text).flatten = filterNonWs text := by
  by_cases hempty : text.isEmpty
  · rw [List.isEmpty_iff] at hempty
    subst hempty
    rfl
  · by_cases hlen : text.length ≤ MAX_CHARS_PER_CHUNK
    · unfold splitTextIntoChunks
      rw [if_pos (by rw [decide_eq_true hlen, Bool.or_true])]
      rw [if_neg hempty]
      rw [List.flatten_cons, List.flatten_nil, List.append_nil]
    · rw [splitTextIntoChunks_long text (by omega), flatten_filter_nonempty]
      cases hopt : splitLoop text (text.length + 1) 0 with
      | none =>
        exfalso
        have := splitLoop_top_isSome text (by omega)
        rw [hopt] at this
        cases this
      | some cs =>
        rw [Option.getD_some]
        have := splitLoop_content text (text.length + 1) 0 cs hopt
        rwa [List.drop_zero] at this

/-- C10.  In the merged document, every page after the first contributes
its header immediately after a newline: the string
`"\n--- Page " ++ natStr (i+1) ++ " ---"` occurs in the merge result for
every page index `1 ≤ i < number of pages` (so the exact substring
`"\n--- Page"` that the splitter searches for occurs at every such page
boundary). -/
theorem claim10_theorem (pdfTextPages : List (List Char))
    (imageTextDict : ℕ → Option (List Char)) (i : ℕ) (h1 : 1 ≤ i)
    (hlt : i < pdfTextPages.length) :
    occursIn ("\n--- Page ".data ++ natStr (i + 1) ++ " ---".data)
      (mergeTextAndImages pdfTextPages imageTextDict) :=
  mergeTextAndImages_marker pdfTextPages imageTextDict i h1 hlt

/-- C10 (witness): with two pages and no OCR text, the second page marker
occurs after a newline in the merged document. -/
theorem claim10_witness :
    (1 : ℕ) ≤ 1 ∧ 1 < (["one".data, "two".data] : List (List Char)).length ∧
    occursIn ("\n--- Page ".data ++ natStr 2 ++ " ---".data)
      (mergeTextAndImages ["one".data, "two".data] (fun _ => none)) :=
  ⟨le_refl 1, by decide, claim10_theorem ["one".data, "two".data] (fun _ => none) 1
    (le_refl 1) (by decide)⟩

theorem ite_pair_snd (c1 c2 : Prop) [Decidable c1] [Decidable c2]
    (a b c : List Char × Bool) (ha : a.2 = true) (hb : b.2 = true)
    (hc : c.2 = true) :
    (if c1 then a else if c2 then b else c).2 = true := by
  split_ifs <;> assumption

theorem sendApiRequest_snd_true (apiKey : List Char) (outcome : ApiOutcome)
    (h : apiKey.isEmpty = false) : (sendApiRequest apiKey outcome).2 = true := by
  simp only [sendApiRequest]
  rw [if_neg (by rw [h]; simp)]
  cases outcome with
  | timeout => rfl
  | httpError e st bj bt => rfl
  | requestError e => rfl
  | parseError e => rfl
  | unexpected e => rfl
  | success rd =>
    rcases rd with ⟨tr, ch, rp⟩
    cases tr with
    | false =>
      cases ch with
      | none => rfl
      | some l =>
        cases l with
        | nil => rfl
        | cons a b => rfl
    | true =>
      cases ch with
      | none => rfl
      | some l =>
        cases l with
        | nil => rfl
        | cons choice rest =>
          rcases choice with ⟨msgOpt, frOpt⟩
          cases msgOpt with
          | none =>
            cases frOpt with
            | none => rfl
            | some fr => exact ite_pair_snd _ _ _ _ _ rfl rfl rfl
          | some msg =>
            rcases msg with ⟨contentOpt⟩
            cases contentOpt with
            | none =>
              cases frOpt with
              | none => rfl
              | some fr => exact ite_pair_snd _ _ _ _ _ rfl rfl rfl
            | some cl =>
              cases cl with
              | nil =>
                cases frOpt with
                | none => rfl
                | some fr => exact ite_pair_snd _ _ _ _ _ rfl rfl rfl
              | cons c cs => rfl

theorem startsWith_ite_fst (c1 c2 : Prop) [Decidable c1] [Decidable c2]
    (a b c : List Char × Bool) (p : List Char)
    (ha : startsWithList p a.1 = true) (hb : startsWithList p b.1 = true)
    (hc : startsWithList p c.1 = true) :
    startsWithList p (if c1 then a else if c2 then b else c).1 = true := by
  split_ifs <;> assumption

theorem errorTag_emptyNone :
    startsWithList errorTag
      "Error: API returned empty content (Finish Reason: None).".data = true := by
  decide

theorem sendApiRequest_classified (apiKey : List Char) (outcome : ApiOutcome)
    (h : apiKey.isEmpty = false) :
    startsWithList errorTag (sendApiRequest apiKey outcome).1 = true ∨
      ∃ rd choice rest c cs, outcome = ApiOutcome.success rd ∧ rd.isTruthy = true ∧
        rd.choices = some (choice :: rest) ∧
        (choice.message.getD ⟨none⟩).content = some (c :: cs) ∧
        (sendApiRequest apiKey outcome).1 = stripChars (c :: cs) := by
  simp only [sendApiRequest]
  rw [if_neg (by rw [h]; simp)]
  cases outcome with
  | timeout => exact Or.inl (by decide)
  | httpError e st bj bt =>
    exact Or.inl (startsWithList_append_of _ _ _ (startsWithList_append_of _ _ _
      (startsWithList_append_of _ _ _ (startsWithList_append_of _ _ _
        (startsWithList_append_of _ _ _ (by decide))))))
  | requestError e => exact Or.inl (startsWithList_append_of _ _ _ (by decide))
  | parseError e => exact Or.inl (startsWithList_append_of _ _ _ (by decide))
  | unexpected e => exact Or.inl (startsWithList_append_of _ _ _ (by decide))
  | success rd =>
    rcases rd with ⟨tr, ch, rp⟩
    cases tr with
    | false =>
      cases ch with
      | none => exact Or.inl (startsWithList_append_of _ _ _ (by decide))
      | some l =>
        cases l with
        | nil => exact Or.inl (startsWithList_append_of _ _ _ (by decide))
        | cons a b => exact Or.inl (startsWithList_append_of _ _ _ (by decide))
    | true =>
      cases ch with
      | none => exact Or.inl (startsWithList_append_of _ _ _ (by decide))
      | some l =>
        cases l with
        | nil => exact Or.inl (startsWithList_append_of _ _ _ (by decide))
        | cons choice rest =>
          rcases choice with ⟨msgOpt, frOpt⟩
          cases msgOpt with
          | none =>
            cases frOpt with
            | none => exact Or.inl errorTag_emptyNone
            | some fr =>
              exact Or.inl (startsWith_ite_fst _ _ _ _ _ _ (by decide) (by decide)
                (startsWithList_append_of _ _ _ (startsWithList_append_of _ _ _ (by decide))))
          | some msg =>
            rcases msg with ⟨contentOpt⟩
            cases contentOpt with
            | none =>
              cases frOpt with
              | none => exact Or.inl errorTag_emptyNone
              | some fr =>
                exact Or.inl (startsWith_ite_fst _ _ _ _ _ _ (by decide) (by decide)
                  (startsWithList_append_of _ _ _ (startsWithList_append_of _ _ _ (by decide))))
            | some cl =>
              cases cl with
              | nil =>
                cases frOpt with
                | none => exact Or.inl errorTag_emptyNone
                | some fr =>
                  exact Or.inl (startsWith_ite_fst _ _ _ _ _ _ (by decide) (by decide)
                    (startsWithList_append_of _ _ _ (startsWithList_append_of _ _ _ (by decide))))
              | cons c cs =>
                exact Or.inr ⟨ApiResponseData.mk true
                    (some (ApiChoice.mk (some (ApiMessage.mk (some (c :: cs)))) frOpt :: rest)) rp,
                  ApiChoice.mk (some (ApiMessage.mk (some (c :: cs)))) frOpt, rest, c, cs,
                  rfl, rfl, rfl, rfl, rfl⟩

/-- C5.  `_send_api_request` never lets a failure escape as an exception:
with a missing credential it returns the fixed error string without
attempting the network call; with a credential present the network call is
attempted and every outcome resolves to a string — every transport,
HTTP, network, parsing or empty-content failure yields a string starting
with the `"Error:"` tag, while a successful response carrying non-empty
content returns exactly the trimmed content (no error tag is added). -/
theorem claim5_theorem (apiKey : List Char) (outcome : ApiOutcome) :
    (apiKey = [] → sendApiRequest apiKey outcome = (apiKeyMissingMsg, false)) ∧
    (apiKey ≠ [] → (sendApiRequest apiKey outcome).2 = true) ∧
    (apiKey ≠ [] →
      startsWithList errorTag (sendApiRequest apiKey outcome).1 = true ∨
      ∃ rd choice rest c cs, outcome = ApiOutcome.success rd ∧ rd.isTruthy = true ∧
        rd.choices = some (choice :: rest) ∧
        (choice.message.getD ⟨none⟩).content = some (c :: cs) ∧
        (sendApiRequest apiKey outcome).1 = stripChars (c :: cs)) ∧
    (∀ rd choice rest c cs, apiKey ≠ [] → outcome = ApiOutcome.success rd →
      rd.isTruthy = true → rd.choices = some (choice :: rest) →
      (choice.message.getD ⟨none⟩).content = some (c :: cs) →
      (sendApiRequest apiKey outcome).1 = stripChars (c :: cs)) := by
  refine ⟨?_, fun hne => sendApiRequest_snd_true _ _ (List.isEmpty_eq_false.2 hne),
    fun hne => sendApiRequest_classified _ _ (List.isEmpty_eq_false.2 hne), ?_⟩
  · intro h
    subst h
    rfl
  · intro rd choice rest c cs hne hout htr hch hmc
    subst hout
    rcases rd with ⟨tr, ch, rp⟩
    have htr2 : tr = true := htr
    have hch2 : ch = some (choice :: rest) := hch
    subst htr2
    subst hch2
    simp only [sendApiRequest]
    rw [if_neg (by rw [List.isEmpty_eq_false.2 hne]; simp)]
    rw [hmc]

/-- C5 (witness): with an empty key the request is answered locally with
the fixed message and no network attempt; with a key present the network
call is attempted. -/
theorem claim5_witness :
    ([] : List Char) = [] ∧
    sendApiRequest [] ApiOutcome.timeout = (apiKeyMissingMsg, false) ∧
    ("k".data ≠ ([] : List Char)) ∧
    (sendApiRequest "k".data ApiOutcome.timeout).2 = true :=
  ⟨rfl, (claim5_theorem [] ApiOutcome.timeout).1 rfl, by decide,
    ( claim5_theorem "k".data ApiOutcome.timeout).2.1 (by decide)⟩

theorem errRun_hasErrors :
    (processChunks sendErrFirst demoInstr (splitTextIntoChunks bigText).length
      (splitTextIntoChunks bigText) 0).2.1 = true := by
  rw [bigText_chunks, show (([bigChunk1, cBlock] : List (List Char))).length = 2 from rfl,
    processChunks_errRun]

/-- C3 (counterexample).  Two multi-chunk runs on `bigText`: in the first
every chunk succeeds but the combined summaries exceed
`MAX_COMBINED_SUMMARY_CHARS`; in the second a chunk fails.  Both terminal
results begin with the same `skipNotice` string, so the length-based skip
notice is not a distinct string from the error-based one — the code has
only one notice naming both causes. -/
theorem claim3_counterexample :
    (summarizeText sendAllLong bigText demoInstr).1.take skipNotice.length = skipNotice ∧
    (summarizeText sendErrFirst bigText demoInstr).1.take skipNotice.length = skipNotice := by
  constructor
  · rw [summarizeText_multi sendAllLong bigText demoInstr bigText_isEmpty_false
      bigText_strip_isEmpty_false bigText_two_chunks]
    rw [bigText_chunks, show (([bigChunk1, cBlock] : List (List Char))).length = 2 from rfl,
      processChunks_longRun, intercalate_pair]
    rw [if_pos (Or.inl (by
      rw [List.length_append, List.length_append, List.length_replicate,
        summarySep_length, MAX_COMBINED_val]
      omega))]
    exact List.take_left _ _
  · rw [summarizeText_multi sendErrFirst bigText demoInstr bigText_isEmpty_false
      bigText_strip_isEmpty_false bigText_two_chunks]
    rw [bigText_chunks, show (([bigChunk1, cBlock] : List (List Char))).length = 2 from rfl,
      processChunks_errRun]
    rw [if_pos (Or.inr rfl)]
    exact List.take_left _ _

/-- C3 (amended).  In a multi-chunk run, whenever synthesis is skipped —
because the combined summaries exceed `MAX_COMBINED_SUMMARY_CHARS` or
because a chunk failed — the terminal result is the combined summaries
prefixed with the one fixed `skipNotice`, a notice naming both possible
causes; the same notice string is used for both reasons. -/
theorem claim3_theorem (send : List Char → List Char → List Char)
    (text custom : List Char) (h1 : text.isEmpty = false)
    (h2 : (stripChars text).isEmpty = false)
    (hN : 2 ≤ (splitTextIntoChunks text).length)
    (hskip : MAX_COMBINED_SUMMARY_CHARS
        < (List.intercalate summarySep (processChunks send custom
            (splitTextIntoChunks text).length (splitTextIntoChunks text) 0).1).length
      ∨ (processChunks send custom (splitTextIntoChunks text).length
          (splitTextIntoChunks text) 0).2.1 = true) :
    (summarizeText send text custom).1
      = skipNotice ++ List.intercalate summarySep (processChunks send custom
          (splitTextIntoChunks text).length (splitTextIntoChunks text) 0).1 := by
  rw [summarizeText_multi send text custom h1 h2 hN, if_pos hskip]

/-- C3 (witness): in the failing-chunk run on `bigText` the hypotheses
hold and the terminal result is the notice-prefixed combined string. -/
theorem claim3_witness :
    bigText.isEmpty = false ∧ (stripChars bigText).isEmpty = false ∧
    2 ≤ (splitTextIntoChunks bigText).length ∧
    (processChunks sendErrFirst demoInstr (splitTextIntoChunks bigText).length
      (splitTextIntoChunks bigText) 0).2.1 = true ∧
    (summarizeText sendErrFirst bigText demoInstr).1
      = skipNotice ++ List.intercalate summarySep (processChunks sendErrFirst demoInstr
          (splitTextIntoChunks bigText).length (splitTextIntoChunks bigText) 0).1 :=
  ⟨bigText_isEmpty_false, bigText_strip_isEmpty_false, bigText_two_chunks,
    errRun_hasErrors,
    claim3_theorem sendErrFirst bigText demoInstr bigText_isEmpty_false
      bigText_strip_isEmpty_false bigText_two_chunks (Or.inr errRun_hasErrors)⟩

/-- C4.  In a multi-chunk run with N chunks, exactly N per-chunk requests
are issued in chunk order (the request log is `expectedChunkReqs`, whose
length is N), followed by exactly one synthesis request if and only if no
chunk response carried the error tag and the combined summaries are within
`MAX_COMBINED_SUMMARY_CHARS`; otherwise the terminal result is the
combined summaries prefixed with the skip notice and no further request is
issued. -/
theorem claim4_theorem (send : List Char → List Char → List Char)
    (text custom : List Char) (h1 : text.isEmpty = false)
    (h2 : (stripChars text).isEmpty = false)
    (hN : 2 ≤ (splitTextIntoChunks text).length) :
    summarizeText send text custom
      = (if MAX_COMBINED_SUMMARY_CHARS
            < (List.intercalate summarySep (processChunks send custom
                (splitTextIntoChunks text).length (splitTextIntoChunks text) 0).1).length
          ∨ (processChunks send custom (splitTextIntoChunks text).length
              (splitTextIntoChunks text) 0).2.1 = true then
          (skipNotice ++ List.intercalate summarySep (processChunks send custom
              (splitTextIntoChunks text).length (splitTextIntoChunks text) 0).1,
           expectedChunkReqs custom (splitTextIntoChunks text).length
             (splitTextIntoChunks text) 0)
        else
          (send (synthesisPrompt custom (List.intercalate summarySep (processChunks send custom
              (splitTextIntoChunks text).length (splitTextIntoChunks text) 0).1)) [],
           expectedChunkReqs custom (splitTextIntoChunks text).length
               (splitTextIntoChunks text) 0
             ++ [(synthesisPrompt custom (List.intercalate summarySep (processChunks send custom
                  (splitTextIntoChunks text).length (splitTextIntoChunks text) 0).1), [])])) ∧
    (expectedChunkReqs custom (splitTextIntoChunks text).length
      (splitTextIntoChunks text) 0).length = (splitTextIntoChunks text).length := by
  constructor
  · rw [summarizeText_multi send text custom h1 h2 hN]
    rw [processChunks_reqs send custom (splitTextIntoChunks text).length
      (splitTextIntoChunks text) 0]
  · exact expectedChunkReqs_length custom _ (splitTextIntoChunks text) 0

/-- C4 (witness): on the two-chunk `bigText` run the hypotheses hold and
the per-chunk request log has exactly as many entries as chunks. -/
theorem claim4_witness :
    bigText.isEmpty = false ∧ (stripChars bigText).isEmpty = false ∧
    2 ≤ (splitTextIntoChunks bigText).length ∧
    (expectedChunkReqs demoInstr (splitTextIntoChunks bigText).length
      (splitTextIntoChunks bigText) 0).length = (splitTextIntoChunks bigText).length :=
  ⟨bigText_isEmpty_false, bigText_strip_isEmpty_false, bigText_two_chunks,
    (claim4_theorem sendErrFirst bigText demoInstr bigText_isEmpty_false
      bigText_strip_isEmpty_false bigText_two_chunks).2⟩

/-- C9.  In a multi-chunk run the collected chunk summaries have exactly
one entry per chunk, in chunk order: the j-th summary is the response to
the j-th chunk request if it does not carry the error tag, and otherwise
the bracketed error marker carrying the 1-based index `j + 1`. -/
theorem claim9_theorem (send : List Char → List Char → List Char)
    (text custom : List Char) (hN : 2 ≤ (splitTextIntoChunks text).length) :
    (processChunks send custom (splitTextIntoChunks text).length
        (splitTextIntoChunks text) 0).1.length = (splitTextIntoChunks text).length ∧
    ∀ j, j < (splitTextIntoChunks text).length →
      (processChunks send custom (splitTextIntoChunks text).length
          (splitTextIntoChunks text) 0).1.get? j
        = ((splitTextIntoChunks text).get? j).map (fun chunk =>
            if startsWithList errorTag (send (chunkPrompt custom chunk)
                (chunkContext (j + 1) (splitTextIntoChunks text).length)) then
              chunkErrorEntry (j + 1) (send (chunkPrompt custom chunk)
                (chunkContext (j + 1) (splitTextIntoChunks text).length))
            else
              send (chunkPrompt custom chunk)
                (chunkContext (j + 1) (splitTextIntoChunks text).length)) := by
  constructor
  · exact processChunks_length send custom _ (splitTextIntoChunks text) 0
  · intro j hj
    have h := processChunks_get? send custom (splitTextIntoChunks text).length
      (splitTextIntoChunks text) 0 j
    simp only [Nat.zero_add] at h
    exact h

/-- C9 (witness): on the two-chunk `bigText` run the number of collected
summaries equals the number of chunks. -/
theorem claim9_witness :
    2 ≤ (splitTextIntoChunks bigText).length ∧
    (processChunks sendErrFirst demoInstr (splitTextIntoChunks bigText).length
        (splitTextIntoChunks bigText) 0).1.length = (splitTextIntoChunks bigText).length :=
  ⟨bigText_two_chunks,
    (claim9_theorem sendErrFirst bigText demoInstr bigText_two_chunks).1⟩
